import Mathlib

/-!
Verification development for the OSD-map consensus and mutation engine
(`src/mon/OSDMonitor.cc`, `src/mon/osd/osd_cmds.cc`, `src/mon/osd/osds.cc`).

The C++ code is shallowly embedded: each relevant function is translated
into an executable Lean definition over explicit state values.  Machine
integers that never overflow in the modelled ranges (epochs, osd ids,
counters) are modelled as `Nat`/`Int`; wall-clock times and ratio
thresholds (`float`/`double` in the source) are modelled as `ℚ`; the
transcendental `exp` used by the laggy-decay heuristics is passed in as
an explicit function parameter, so every statement holds for the actual
exponential as a special case.
-/

namespace Ceph

/-! ## Part 1: the versioned-map ledger (`encode_pending`, OSDMonitor.cc:1480-1515)

`encode_pending` finalizes the pending incremental: it applies the pending
delta to the current committed map (`tmp.deepish_copy_from(osdmap);
tmp.apply_incremental(pending_inc)`), records the CRC of the resulting
full map into the delta (`pending_inc.full_crc = tmp.get_crc()`), and
writes both the new full map (`put_version_full`) and the incremental
(`put_version`) for epoch `pending_inc.epoch = last_committed + 1`.

The map type `M`, the delta type `I`, the pure application function `ap`
and the checksum `crc` are parameters: the OSDMap encode/apply machinery
lives outside the monitor sources, and nothing below depends on its
internals. -/

/-- A stored incremental: the delta taking epoch E to E+1 together with the
`full_crc` field stamped by `encode_pending` (OSDMonitor.cc:1497). -/
structure IncRecord (I : Type) where
  delta : I
  full_crc : Nat

/-- The monitor-visible ledger state: the in-memory committed map and epoch,
plus the stored full snapshots (`full_<v>` keys) and incrementals keyed by
their *target* epoch (the record at key `v` takes `v-1` to `v`). -/
structure LedgerState (M I : Type) where
  osdmap : M
  epoch : Nat
  first : Nat
  fulls : Nat → Option M
  incs : Nat → Option (IncRecord I)

/-- One commit round, as performed by `encode_pending` (OSDMonitor.cc:1480-1515)
followed by the commit callback: apply the pending delta to the current map,
stamp `full_crc` with the CRC of the result, store the new full map and the
incremental at epoch `epoch+1`, and advance the committed map and epoch. -/
def commitRound {M I : Type} (ap : M → I → M) (crc : M → Nat)
    (s : LedgerState M I) (delta : I) : LedgerState M I :=
  let tmp := ap s.osdmap delta
  let r : IncRecord I := ⟨delta, crc tmp⟩
  { osdmap := tmp
    epoch := s.epoch + 1
    first := s.first
    fulls := fun v => if v = s.epoch + 1 then some tmp else s.fulls v
    incs := fun v => if v = s.epoch + 1 then some r else s.incs v }

/-- Genesis ledger: epoch 1, only the genesis full map stored. -/
def genesisLedger {M I : Type} (m0 : M) : LedgerState M I :=
  { osdmap := m0
    epoch := 1
    first := 1
    fulls := fun v => if v = 1 then some m0 else none
    incs := fun _ => none }

/-- Run a sequence of commit rounds. -/
def runRounds {M I : Type} (ap : M → I → M) (crc : M → Nat)
    (s : LedgerState M I) (ds : List I) : LedgerState M I :=
  ds.foldl (commitRound ap crc) s

/-- `get_full(E)` at the ledger level: the stored full snapshot. -/
def getFull {M I : Type} (s : LedgerState M I) (v : Nat) : Option M :=
  s.fulls v

/-- `get_incremental(E)`: the stored delta taking epoch E to E+1. -/
def getIncremental {M I : Type} (s : LedgerState M I) (e : Nat) :
    Option (IncRecord I) :=
  s.incs (e + 1)

/-- The chain invariant maintained by `encode_pending`: the current map is
stored at the current epoch, and every committed step satisfies
`full(E+1) = ap (full E) (inc E).delta` with a matching `full_crc`. -/
def ChainOK {M I : Type} (ap : M → I → M) (crc : M → Nat)
    (s : LedgerState M I) : Prop :=
  s.first ≤ s.epoch ∧
  s.fulls s.epoch = some s.osdmap ∧
  ∀ e, s.first ≤ e → e < s.epoch →
    ∃ m r, s.fulls e = some m ∧ s.incs (e + 1) = some r ∧
      s.fulls (e + 1) = some (ap m r.delta) ∧
      r.full_crc = crc (ap m r.delta)

theorem chainOK_genesis {M I : Type} (ap : M → I → M) (crc : M → Nat)
    (m0 : M) : ChainOK ap crc (genesisLedger (I := I) m0) := by
  refine ⟨le_refl _, by simp [genesisLedger], ?_⟩
  intro e h1 h2
  simp [genesisLedger] at h1 h2
  omega

theorem chainOK_commit {M I : Type} (ap : M → I → M) (crc : M → Nat)
    (s : LedgerState M I) (d : I) (h : ChainOK ap crc s) :
    ChainOK ap crc (commitRound ap crc s d) := by
  obtain ⟨hle, hcur, hchain⟩ := h
  refine ⟨by simp [commitRound]; omega, by simp [commitRound], ?_⟩
  intro e h1 h2
  simp only [commitRound] at h1 h2 ⊢
  rcases Nat.lt_or_ge e s.epoch with he | he
  · obtain ⟨m, r, hm, hr, hm1, hcrc⟩ := hchain e h1 he
    refine ⟨m, r, ?_, ?_, ?_, hcrc⟩
    · simp only [if_neg (by omega : ¬ e = s.epoch + 1)]; exact hm
    · simp only [if_neg (by omega : ¬ e + 1 = s.epoch + 1)]; exact hr
    · simp only [if_neg (by omega : ¬ e + 1 = s.epoch + 1)]; exact hm1
  · have heq : e = s.epoch := by omega
    subst heq
    refine ⟨s.osdmap, ⟨d, crc (ap s.osdmap d)⟩, ?_, ?_, ?_, rfl⟩
    · simp only [if_neg (by omega : ¬ s.epoch = s.epoch + 1)]; exact hcur
    · simp
    · simp

theorem chainOK_run {M I : Type} (ap : M → I → M) (crc : M → Nat)
    (s : LedgerState M I) (ds : List I) (h : ChainOK ap crc s) :
    ChainOK ap crc (runRounds ap crc s ds) := by
  induction ds generalizing s with
  | nil => exact h
  | cons d ds ih =>
      exact ih (commitRound ap crc s d) (chainOK_commit ap crc s d h)

/-- **C1.** For every committed epoch E in `[first_committed, last_committed - 1]`
(after any sequence of rounds from genesis), the stored incremental for
`E → E+1` satisfies `get_full(E+1) = apply(get_full(E), get_incremental(E))`
and `get_incremental(E).full_crc = crc(get_full(E+1))`, because
`encode_pending` computes `full_crc` by applying the pending delta to the
current map at finalization time (OSDMonitor.cc:1480-1503). -/
theorem C1_epoch_chain {M I : Type} (ap : M → I → M) (crc : M → Nat)
    (m0 : M) (ds : List I) (e : Nat)
    (h1 : (runRounds ap crc (genesisLedger m0) ds).first ≤ e)
    (h2 : e < (runRounds ap crc (genesisLedger m0) ds).epoch) :
    ∃ m r,
      getFull (runRounds ap crc (genesisLedger m0) ds) e = some m ∧
      getIncremental (runRounds ap crc (genesisLedger m0) ds) e = some r ∧
      getFull (runRounds ap crc (genesisLedger m0) ds) (e + 1) =
        some (ap m r.delta) ∧
      r.full_crc = crc (ap m r.delta) := by
  have h := chainOK_run ap crc (genesisLedger m0) ds
    (chainOK_genesis ap crc m0)
  exact h.2.2 e h1 h2

/-- Witness for C1: a concrete two-round run over `M = I = Nat` with
`ap = (+)` and `crc = id`, checked at epoch 1. -/
theorem C1_epoch_chain_witness :
    ∃ m r,
      getFull (runRounds (fun a b => a + b) (fun m => m)
        (genesisLedger 5) [2, 3]) 1 = some m ∧
      getIncremental (runRounds (fun a b => a + b) (fun m => m)
        (genesisLedger 5) [2, 3]) 1 = some r ∧
      getFull (runRounds (fun a b => a + b) (fun m => m)
        (genesisLedger 5) [2, 3]) 2 = some (m + r.delta) ∧
      r.full_crc = m + r.delta :=
  C1_epoch_chain (fun a b => a + b) (fun m => m) 5 [2, 3] 1
    (by decide) (by decide)

/-! ## Part 2: OSD map and pending-incremental data model

`OSDMap`/`OSDMap::Incremental` themselves live outside the monitor sources
(OSDMap.h/cc are not among the provided files); the fields and one-line
accessors below are modelled from the spec's data model (§3: device table
with existence/up/destroyed bits, in/out weight with 0 = out, uuid, xinfo,
flags, blacklist; deltas as sparse device-state XOR masks, weight changes
and blacklist changes) and are pinned down by their use sites inside the
monitor sources (e.g. `oldstate ^= pending_inc.new_state[from]`,
OSDMonitor.cc:3013).  State bits are modelled as a structure of booleans
instead of a packed integer. -/

/-- The per-osd state bit set (CEPH_OSD_EXISTS/UP/AUTOOUT/NEW/DESTROYED/STOP
and the per-osd NOUP/NODOWN/NOIN/NOOUT flags), and equally the XOR masks
carried in `Incremental::new_state`. -/
structure StateMask where
  existsB : Bool
  up : Bool
  autoout : Bool
  newB : Bool
  destroyed : Bool
  stop : Bool
  noup : Bool
  nodown : Bool
  noin : Bool
  noout : Bool
deriving DecidableEq

/-- The all-zero mask. -/
def StateMask.zero : StateMask :=
  ⟨false, false, false, false, false, false, false, false, false, false⟩

/-- Bitwise XOR of two masks (`osd_state[osd] ^= s`). -/
def StateMask.xorM (a b : StateMask) : StateMask :=
  ⟨xor a.existsB b.existsB, xor a.up b.up, xor a.autoout b.autoout,
   xor a.newB b.newB, xor a.destroyed b.destroyed, xor a.stop b.stop,
   xor a.noup b.noup, xor a.nodown b.nodown, xor a.noin b.noin,
   xor a.noout b.noout⟩

/-- Bitwise OR of two masks (`new_state[osd] |= s`). -/
def StateMask.orM (a b : StateMask) : StateMask :=
  ⟨a.existsB || b.existsB, a.up || b.up, a.autoout || b.autoout,
   a.newB || b.newB, a.destroyed || b.destroyed, a.stop || b.stop,
   a.noup || b.noup, a.nodown || b.nodown, a.noin || b.noin,
   a.noout || b.noout⟩

/-- `CEPH_OSD_UP` as a mask. -/
def cephOsdUp : StateMask := { StateMask.zero with up := true }

/-- `CEPH_OSD_EXISTS` as a mask. -/
def cephOsdExists : StateMask := { StateMask.zero with existsB := true }

/-- `CEPH_OSD_AUTOOUT` as a mask. -/
def cephOsdAutoout : StateMask := { StateMask.zero with autoout := true }

/-- `CEPH_OSD_NEW` as a mask. -/
def cephOsdNew : StateMask := { StateMask.zero with newB := true }

/-- `CEPH_OSD_DESTROYED` as a mask. -/
def cephOsdDestroyed : StateMask := { StateMask.zero with destroyed := true }

/-- `osd_xinfo_t`: laggy heuristics and bookkeeping for one osd. -/
structure XInfo where
  laggyProbability : ℚ
  laggyInterval : ℚ
  downStamp : ℚ
  oldWeight : Nat
  deadEpoch : Nat
deriving DecidableEq

/-- Default-initialized xinfo. -/
def XInfo.default : XInfo := ⟨0, 0, 0, 0, 0⟩

/-- The committed versioned map, restricted to the state the modelled
monitor handlers read.  Addresses and uuids are abstract tokens (`Nat`,
with 0 standing for the zero uuid); `crushLoc r level` models
`crush->get_full_location(r).find(level)`; `subtreeDown o` models
`containing_subtree_is_down` for the configured subtree limit. -/
structure OSDMap where
  maxOsd : Nat
  osdState : Nat → StateMask
  osdWeight : Nat → Nat
  osdUuid : Nat → Nat
  osdXinfo : Nat → XInfo
  clientAddrs : Nat → Nat
  clusterAddrs : Nat → Nat
  mostRecentAddrs : Nat → Nat
  osdUpFrom : Nat → Nat
  crushLoc : Nat → String → Option String
  subtreeDown : Nat → Bool
  flagNoup : Bool
  flagNodown : Bool
  flagNoin : Bool
  flagNoout : Bool
  blacklist : List (Nat × ℚ)

/-- `OSDMap::exists(i)`: the id is inside the table and has the EXISTS bit. -/
def OSDMap.existsOsd (m : OSDMap) (i : Nat) : Bool :=
  decide (i < m.maxOsd) && (m.osdState i).existsB

/-- `OSDMap::is_up(i)`. -/
def OSDMap.isUp (m : OSDMap) (i : Nat) : Bool :=
  m.existsOsd i && (m.osdState i).up

/-- `OSDMap::is_down(i)`. -/
def OSDMap.isDown (m : OSDMap) (i : Nat) : Bool :=
  !(m.isUp i)

/-- `OSDMap::is_destroyed(i)`. -/
def OSDMap.isDestroyed (m : OSDMap) (i : Nat) : Bool :=
  m.existsOsd i && (m.osdState i).destroyed

/-- `OSDMap::is_out(i)`: weight 0 (`CEPH_OSD_OUT`) or nonexistent. -/
def OSDMap.isOut (m : OSDMap) (i : Nat) : Bool :=
  !(m.existsOsd i) || decide (m.osdWeight i = 0)

/-- `OSDMap::is_in(i)`. -/
def OSDMap.isIn (m : OSDMap) (i : Nat) : Bool :=
  !(m.isOut i)

/-- `OSDMap::is_nodown(i)`: the global NODOWN flag or the per-osd bit. -/
def OSDMap.isNodown (m : OSDMap) (i : Nat) : Bool :=
  m.flagNodown || (m.existsOsd i && (m.osdState i).nodown)

/-- `OSDMap::is_noup(i)`. -/
def OSDMap.isNoup (m : OSDMap) (i : Nat) : Bool :=
  m.flagNoup || (m.existsOsd i && (m.osdState i).noup)

/-- `OSDMap::is_noin(i)`. -/
def OSDMap.isNoin (m : OSDMap) (i : Nat) : Bool :=
  m.flagNoin || (m.existsOsd i && (m.osdState i).noin)

/-- `OSDMap::is_noout(i)` for a possibly-negative id (the tick sweep calls
`can_mark_out(-1)`, where only the global flag applies). -/
def OSDMap.isNoout (m : OSDMap) (i : Int) : Bool :=
  m.flagNoout ||
    (decide (0 ≤ i) && m.existsOsd i.toNat && (m.osdState i.toNat).noout)

/-- `OSDMap::get_num_osds()`: number of existing osds. -/
def OSDMap.numOsds (m : OSDMap) : Nat :=
  (List.range m.maxOsd).countP (fun i => m.existsOsd i)

/-- `OSDMap::get_num_up_osds()`. -/
def OSDMap.numUp (m : OSDMap) : Nat :=
  (List.range m.maxOsd).countP (fun i => m.isUp i)

/-- `OSDMap::get_num_in_osds()`. -/
def OSDMap.numIn (m : OSDMap) : Nat :=
  (List.range m.maxOsd).countP (fun i => m.isIn i)

/-- Association-map helpers modelling `std::map<int, T>` access. -/
def amGet {α : Type} : List (Nat × α) → Nat → Option α
  | [], _ => none
  | (k0, v0) :: t, k => if k0 = k then some v0 else amGet t k

/-- `map[k] = v` (insert or overwrite). -/
def amSet {α : Type} : List (Nat × α) → Nat → α → List (Nat × α)
  | [], k, v => [(k, v)]
  | (k0, v0) :: t, k, v =>
      if k0 = k then (k, v) :: t else (k0, v0) :: amSet t k v

/-- `map.count(k) != 0`. -/
def amContains {α : Type} (l : List (Nat × α)) (k : Nat) : Bool :=
  (amGet l k).isSome

theorem amGet_amSet_self {α : Type} (l : List (Nat × α)) (k : Nat) (v : α) :
    amGet (amSet l k v) k = some v := by
  induction l with
  | nil => simp [amSet, amGet]
  | cons h t ih =>
      obtain ⟨k0, v0⟩ := h
      by_cases hk : k0 = k
      · simp [amSet, amGet, hk]
      · simp [amSet, amGet, hk, ih]

theorem amGet_amSet_other {α : Type} (l : List (Nat × α)) (k k2 : Nat)
    (v : α) (h : k ≠ k2) : amGet (amSet l k v) k2 = amGet l k2 := by
  induction l with
  | nil => simp [amSet, amGet, h]
  | cons hd t ih =>
      obtain ⟨k0, v0⟩ := hd
      by_cases hk : k0 = k
      · subst hk
        simp [amSet, amGet, h]
      · simp [amSet, amGet, hk, ih]

/-- The pending incremental delta being accumulated this round, restricted
to the fields the modelled handlers touch. -/
structure PendingInc where
  epoch : Nat
  newState : List (Nat × StateMask)
  newWeight : List (Nat × Nat)
  newUpClient : List (Nat × Nat)
  newUpCluster : List (Nat × Nat)
  newUuid : List (Nat × Nat)
  newXinfo : List (Nat × XInfo)
  newMaxOsd : Int
  oldBlacklist : List Nat
  newBlacklist : List (Nat × ℚ)
deriving DecidableEq

/-- An empty pending delta at the given epoch (start of a round). -/
def PendingInc.empty (e : Nat) : PendingInc :=
  ⟨e, [], [], [], [], [], [], -1, [], []⟩

/-- Modelled from the spec: `Incremental::get_net_marked_down(&osdmap)`
(OSDMap.h is not among the sources; §4.2 requires that "the pending effect
of transitions already staged in pending_delta this round must be included"):
the number of staged state masks that would take a currently-up osd down. -/
def PendingInc.getNetMarkedDown (p : PendingInc) (m : OSDMap) : Int :=
  p.newState.foldl
    (fun n kv => if kv.2.up && m.isUp kv.1 then n + 1 else n) 0

/-- Modelled from the spec: `Incremental::get_net_marked_out(&osdmap)`
(same provenance): staged weight changes taking an in osd out count +1,
staged changes taking an out osd in count -1. -/
def PendingInc.getNetMarkedOut (p : PendingInc) (m : OSDMap) : Int :=
  p.newWeight.foldl
    (fun n kv =>
      if decide (kv.2 = 0) && !(m.isOut kv.1) then n + 1
      else if decide (kv.2 ≠ 0) && m.isOut kv.1 then n - 1
      else n) 0

/-- The configuration options read by the modelled handlers.  `decayK`
stands for the precomputed constant `log(1/2) / mon_osd_laggy_halflife`
(OSDMonitor.cc:2668). -/
structure MonConfig where
  monOsdMinUpRatio : ℚ
  monOsdMinInRatio : ℚ
  monOsdAdjustHeartbeatGrace : Bool
  osdHeartbeatGrace : ℚ
  decayK : ℚ
  monOsdReporterSubtreeLevel : String
  monOsdMinDownReporters : Nat
  monOsdDownOutInterval : ℚ
  monOsdDestroyedOutInterval : ℚ
  monOsdAdjustDownOutInterval : Bool
  monOsdDownOutSubtreeLimitActive : Bool
  monMinOsdmapEpochs : Nat
  monOsdmapFullPruneMin : Nat
  monOsdmapFullPruneInterval : Nat
  monOsdmapFullPruneTxsize : Nat
  monOsdmapFullPruneEnabled : Bool
  monDebugExtraChecks : Bool

/-- `OSDMonitor::can_mark_down` (OSDMonitor.cc:2555-2577): nodown flag,
empty map, then the up-ratio floor evaluated against the prospective
post-round map (`get_num_up_osds() - get_net_marked_down`). -/
def canMarkDown (cfg : MonConfig) (m : OSDMap) (p : PendingInc)
    (i : Nat) : Bool :=
  if m.isNodown i then false
  else if decide (m.numOsds = 0) then false
  else
    let up : Int := (m.numUp : Int) - p.getNetMarkedDown m
    if ((up : ℚ) / (m.numOsds : ℚ)) < cfg.monOsdMinUpRatio then false
    else true

/-- `OSDMonitor::can_mark_out` (OSDMonitor.cc:2594-2622), with the id as
`Int` because the tick sweep passes `-1`. -/
def canMarkOut (cfg : MonConfig) (m : OSDMap) (p : PendingInc)
    (i : Int) : Bool :=
  if m.isNoout i then false
  else if decide (m.numOsds = 0) then false
  else
    let inOsds : Int := (m.numIn : Int) - p.getNetMarkedOut m
    if ((inOsds : ℚ) / (m.numOsds : ℚ)) < cfg.monOsdMinInRatio then false
    else true

/-- `OSDMonitor::can_mark_up` (OSDMonitor.cc:2579-2588). -/
def canMarkUp (m : OSDMap) (i : Nat) : Bool :=
  !(m.isNoup i)

/-- `OSDMonitor::can_mark_in` (OSDMonitor.cc:2624-2633). -/
def canMarkIn (m : OSDMap) (i : Nat) : Bool :=
  !(m.isNoin i)

/-- The prospective up-ratio `can_mark_down` tests: committed up count minus
net pending marked-down, over the total osd count. -/
def prospectiveUpRatio (m : OSDMap) (p : PendingInc) : ℚ :=
  (((m.numUp : Int) - p.getNetMarkedDown m : Int) : ℚ) / (m.numOsds : ℚ)

/-! ## Part 3: the failure detector (`check_failure`, OSDMonitor.cc:2648-2734) -/

/-- `failure_info_t`, restricted to what `check_failure` reads: the
reporter ids (keys of the reporters map, in iteration order) and
`get_failed_since()`. -/
structure FailureInfo where
  reporters : List Nat
  failedSince : ℚ

/-- Is a down transition for `target` already staged in the pending delta
(`new_state.count(target) && new_state[target] & CEPH_OSD_UP`)? -/
def alreadyPendingDown (p : PendingInc) (target : Nat) : Bool :=
  match amGet p.newState target with
  | some s => s.up
  | none => false

/-- Stage a down transition: `pending_inc.new_state[target] = CEPH_OSD_UP`. -/
def stageDown (p : PendingInc) (target : Nat) : PendingInc :=
  { p with newState := amSet p.newState target cephOsdUp }

/-- The subtree-grouping key for one reporter (OSDMonitor.cc:2689-2697):
the parent bucket at the configured level, falling back to
`"osd.<id>"` when the crush location lacks that level. -/
def reporterSubtreeKey (cfg : MonConfig) (m : OSDMap) (r : Nat) : String :=
  match m.crushLoc r cfg.monOsdReporterSubtreeLevel with
  | none => "osd." ++ toString r
  | some s => s

/-- `OSDMonitor::check_failure` (OSDMonitor.cc:2648-2734).  Returns the
found-failure flag and the updated pending delta.  The reporter loop of the
source both inserts grouping keys into `reporters_by_subtree` and
accumulates `peer_grace`; the two folds below perform exactly those two
accumulations.  `expFn` stands for the C `exp` function. -/
def checkFailure (cfg : MonConfig) (expFn : ℚ → ℚ) (m : OSDMap) (now : ℚ)
    (p : PendingInc) (targetOsd : Nat) (fi : FailureInfo) :
    Bool × PendingInc :=
  if alreadyPendingDown p targetOsd then (true, p)
  else
    let origGrace : ℚ := cfg.osdHeartbeatGrace
    let failedFor : ℚ := now - fi.failedSince
    let myGrace : ℚ :=
      if cfg.monOsdAdjustHeartbeatGrace then
        let xi := m.osdXinfo targetOsd
        expFn (failedFor * cfg.decayK) * xi.laggyInterval *
          xi.laggyProbability
      else 0
    let reportersBySubtree : Finset String :=
      fi.reporters.foldl
        (fun s r => insert (reporterSubtreeKey cfg m r) s) ∅
    let peerSum : ℚ :=
      fi.reporters.foldl
        (fun acc r =>
          let xi := m.osdXinfo r
          acc + expFn ((now - xi.downStamp) * cfg.decayK) *
            xi.laggyInterval * xi.laggyProbability) 0
    let peerGrace : ℚ :=
      if cfg.monOsdAdjustHeartbeatGrace then
        peerSum / (fi.reporters.length : ℚ)
      else 0
    let grace : ℚ := origGrace + myGrace + peerGrace
    if failedFor ≥ grace ∧
        reportersBySubtree.card ≥ cfg.monOsdMinDownReporters then
      (true, stageDown p targetOsd)
    else
      (false, p)

/-- `OSDMonitor::check_failures` (OSDMonitor.cc:2635-2646): fold over the
pending failure reports, gating each on `can_mark_down`. -/
def checkFailures (cfg : MonConfig) (expFn : ℚ → ℚ) (m : OSDMap) (now : ℚ)
    (p : PendingInc) (failureInfo : List (Nat × FailureInfo)) :
    Bool × PendingInc :=
  failureInfo.foldl
    (fun acc kv =>
      if canMarkDown cfg m acc.2 kv.1 then
        let r := checkFailure cfg expFn m now acc.2 kv.1 kv.2
        (acc.1 || r.1, r.2)
      else acc)
    (false, p)

/-- **C4.** Within a single round, a mark_down stimulus K is rejected
whenever accepting it would violate the up-ratio floor accounting for all
previously-accepted down transitions already staged this round:
`can_mark_down` evaluates the up-ratio against the prospective post-round
map (up count minus net pending marked-down), so once that prospective
ratio is below `mon_osd_min_up_ratio`, processing one more failure report
leaves the pending delta unchanged (OSDMonitor.cc:2555-2577, 2635-2646). -/
theorem C4_ratio_floor (cfg : MonConfig) (expFn : ℚ → ℚ) (m : OSDMap)
    (now : ℚ) (p : PendingInc) (prior : List (Nat × FailureInfo))
    (k : Nat) (fi : FailureInfo)
    (h : prospectiveUpRatio m (checkFailures cfg expFn m now p prior).2 <
      cfg.monOsdMinUpRatio) :
    canMarkDown cfg m (checkFailures cfg expFn m now p prior).2 k = false ∧
    checkFailures cfg expFn m now p (prior ++ [(k, fi)]) =
      checkFailures cfg expFn m now p prior := by
  have hfold : checkFailures cfg expFn m now p (prior ++ [(k, fi)]) =
      (if canMarkDown cfg m (checkFailures cfg expFn m now p prior).2 k then
        let r := checkFailure cfg expFn m now
          (checkFailures cfg expFn m now p prior).2 k fi
        ((checkFailures cfg expFn m now p prior).1 || r.1, r.2)
      else (checkFailures cfg expFn m now p prior)) := by
    simp [checkFailures, List.foldl_append]
  have hcmd : canMarkDown cfg m (checkFailures cfg expFn m now p prior).2 k
      = false := by
    unfold canMarkDown
    split
    · rfl
    · split
      · rfl
      · simp only [prospectiveUpRatio] at h
        rw [if_pos h]
  refine ⟨hcmd, ?_⟩
  rw [hfold, hcmd]
  simp

/-- Sample configuration used by concrete witnesses. -/
def cfg0 : MonConfig :=
  { monOsdMinUpRatio := 3/4, monOsdMinInRatio := 3/4
    monOsdAdjustHeartbeatGrace := true, osdHeartbeatGrace := 20
    decayK := -1, monOsdReporterSubtreeLevel := "host"
    monOsdMinDownReporters := 2, monOsdDownOutInterval := 600
    monOsdDestroyedOutInterval := 600
    monOsdAdjustDownOutInterval := true
    monOsdDownOutSubtreeLimitActive := false
    monMinOsdmapEpochs := 500, monOsdmapFullPruneMin := 10000
    monOsdmapFullPruneInterval := 10
    monOsdmapFullPruneTxsize := 100
    monOsdmapFullPruneEnabled := true
    monDebugExtraChecks := false }

/-- A sample exp function for witnesses (any `ℚ → ℚ` works in the
theorems). -/
def expOne : ℚ → ℚ := fun _ => 1

/-- Sample map: two osds, both existing, up and in with weight 1. -/
def mapTwoUp : OSDMap :=
  { maxOsd := 2
    osdState := fun _ => { StateMask.zero with existsB := true, up := true }
    osdWeight := fun _ => 1
    osdUuid := fun _ => 1
    osdXinfo := fun _ => XInfo.default
    clientAddrs := fun _ => 0
    clusterAddrs := fun _ => 0
    mostRecentAddrs := fun _ => 0
    osdUpFrom := fun _ => 0
    crushLoc := fun _ _ => none
    subtreeDown := fun _ => false
    flagNoup := false, flagNodown := false
    flagNoin := false, flagNoout := false
    blacklist := [] }

/-- Sample pending delta with a down transition for osd 0 already staged. -/
def pendOneDown : PendingInc :=
  { PendingInc.empty 5 with newState := [(0, cephOsdUp)] }

/-- Witness for C4: two osds, both up, osd 0 already staged down, floor 3/4:
the prospective ratio is 1/2, so the report against osd 1 is rejected. -/
theorem C4_ratio_floor_witness :
    prospectiveUpRatio mapTwoUp
        (checkFailures cfg0 expOne mapTwoUp 100 pendOneDown []).2 <
      cfg0.monOsdMinUpRatio ∧
    canMarkDown cfg0 mapTwoUp
      (checkFailures cfg0 expOne mapTwoUp 100 pendOneDown []).2 1 = false := by
  have h : prospectiveUpRatio mapTwoUp
      (checkFailures cfg0 expOne mapTwoUp 100 pendOneDown []).2 <
      cfg0.monOsdMinUpRatio := by
    norm_num [prospectiveUpRatio, checkFailures, PendingInc.getNetMarkedDown,
      pendOneDown, mapTwoUp, cfg0, PendingInc.empty, OSDMap.numUp,
      OSDMap.numOsds, OSDMap.isUp, OSDMap.existsOsd, cephOsdUp,
      StateMask.zero, List.range_succ]
  exact ⟨h,
    (C4_ratio_floor cfg0 expOne mapTwoUp 100 pendOneDown [] 1 ⟨[0], 0⟩ h).1⟩

/-- The grace period computed by `check_failure` when
`mon_osd_adjust_heartbeat_grace` is on, written in the claim's shape:
base grace, plus the decayed self term of the reported osd, plus the plain
average over all reporters of their decayed laggy terms. -/
def graceOf (cfg : MonConfig) (expFn : ℚ → ℚ) (m : OSDMap) (now : ℚ)
    (target : Nat) (fi : FailureInfo) : ℚ :=
  cfg.osdHeartbeatGrace +
    expFn ((now - fi.failedSince) * cfg.decayK) *
      (m.osdXinfo target).laggyInterval *
      (m.osdXinfo target).laggyProbability +
    (fi.reporters.map (fun r =>
        expFn ((now - (m.osdXinfo r).downStamp) * cfg.decayK) *
          (m.osdXinfo r).laggyInterval *
          (m.osdXinfo r).laggyProbability)).sum /
      (fi.reporters.length : ℚ)

/-- The number of distinct reporter topology groups, in the claim's shape:
reporters mapped to their subtree key, deduplicated. -/
def distinctGroupCount (cfg : MonConfig) (m : OSDMap)
    (fi : FailureInfo) : Nat :=
  (fi.reporters.map (reporterSubtreeKey cfg m)).toFinset.card

theorem foldl_insert_toFinset (key : Nat → String) (l : List Nat)
    (s : Finset String) :
    l.foldl (fun acc r => insert (key r) acc) s =
      (l.map key).toFinset ∪ s := by
  induction l generalizing s with
  | nil => simp
  | cons a t ih =>
      simp only [List.foldl_cons, List.map_cons, List.toFinset_cons, ih,
        Finset.insert_union, Finset.union_insert]

theorem foldl_add_sum (f : Nat → ℚ) (l : List Nat) (acc : ℚ) :
    l.foldl (fun a r => a + f r) acc = acc + (l.map f).sum := by
  induction l generalizing acc with
  | nil => simp
  | cons a t ih =>
      simp only [List.foldl_cons, List.map_cons, List.sum_cons, ih]
      ring

/-- **C5.** With grace adjustment enabled and no down transition already
staged for the target, `check_failure(now, device, report)` stages a down
transition if and only if `(now - failed_since) ≥ grace` and the number of
distinct reporter topology groups (subtree level, falling back to the
reporter's own id) is at least `mon_osd_min_down_reporters`, where `grace`
is the base grace plus the decayed self term plus the plain average of the
reporters' decayed laggy terms; otherwise nothing is staged and the report
stays pending (OSDMonitor.cc:2648-2734). -/
theorem C5_check_failure_iff (cfg : MonConfig) (expFn : ℚ → ℚ) (m : OSDMap)
    (now : ℚ) (p : PendingInc) (target : Nat) (fi : FailureInfo)
    (hadj : cfg.monOsdAdjustHeartbeatGrace = true)
    (hnp : alreadyPendingDown p target = false)
    (hrep : fi.reporters ≠ []) :
    (now - fi.failedSince ≥ graceOf cfg expFn m now target fi ∧
        distinctGroupCount cfg m fi ≥ cfg.monOsdMinDownReporters →
      checkFailure cfg expFn m now p target fi =
        (true, stageDown p target)) ∧
    (¬ (now - fi.failedSince ≥ graceOf cfg expFn m now target fi ∧
        distinctGroupCount cfg m fi ≥ cfg.monOsdMinDownReporters) →
      checkFailure cfg expFn m now p target fi = (false, p)) := by
  have hgr : checkFailure cfg expFn m now p target fi =
      if now - fi.failedSince ≥ graceOf cfg expFn m now target fi ∧
          distinctGroupCount cfg m fi ≥ cfg.monOsdMinDownReporters then
        (true, stageDown p target)
      else (false, p) := by
    unfold checkFailure
    rw [hnp]
    simp only [Bool.false_eq_true, if_false, hadj, if_true]
    rw [foldl_insert_toFinset, foldl_add_sum]
    simp only [Finset.union_empty, zero_add]
    have hgrace : cfg.osdHeartbeatGrace +
        expFn ((now - fi.failedSince) * cfg.decayK) *
          (m.osdXinfo target).laggyInterval *
          (m.osdXinfo target).laggyProbability +
        (fi.reporters.map (fun r =>
            expFn ((now - (m.osdXinfo r).downStamp) * cfg.decayK) *
              (m.osdXinfo r).laggyInterval *
              (m.osdXinfo r).laggyProbability)).sum /
          (fi.reporters.length : ℚ) =
        graceOf cfg expFn m now target fi := rfl
    rw [hgrace]
    rfl
  constructor
  · intro hcond
    rw [hgr, if_pos hcond]
  · intro hcond
    rw [hgr, if_neg hcond]

/-- Witness for C5: both reporters in distinct fallback groups, zero laggy
history (grace 20), 100 seconds elapsed: the transition is staged. -/
theorem C5_check_failure_iff_witness :
    (100 - (0 : ℚ) ≥ graceOf cfg0 expOne mapTwoUp 100 1 ⟨[0, 1], 0⟩ ∧
      distinctGroupCount cfg0 mapTwoUp ⟨[0, 1], 0⟩ ≥
        cfg0.monOsdMinDownReporters) ∧
    checkFailure cfg0 expOne mapTwoUp 100 (PendingInc.empty 5) 1
        ⟨[0, 1], 0⟩ =
      (true, stageDown (PendingInc.empty 5) 1) := by
  have hcond : 100 - (0 : ℚ) ≥ graceOf cfg0 expOne mapTwoUp 100 1
        ⟨[0, 1], 0⟩ ∧
      distinctGroupCount cfg0 mapTwoUp ⟨[0, 1], 0⟩ ≥
        cfg0.monOsdMinDownReporters := by
    constructor
    · norm_num [graceOf, expOne, mapTwoUp, cfg0, XInfo.default]
    · simp only [distinctGroupCount, reporterSubtreeKey, mapTwoUp, cfg0]
      decide
  exact ⟨hcond,
    (C5_check_failure_iff cfg0 expOne mapTwoUp 100 (PendingInc.empty 5) 1
      ⟨[0, 1], 0⟩ rfl rfl (by simp)).1 hcond⟩

/-! ## Part 4: the boot handler (`preprocess_boot` / `prepare_boot`,
OSDMonitor.cc:2866-3142) -/

/-- An `MOSDBoot` message, restricted to what the modelled guards read.
The permission/feature guards that depend on out-of-scope subsystems
(session caps, fsid, feature bits, release gates) are carried as the
booleans they evaluate to. -/
structure BootMsg where
  osdFrom : Nat
  clientAddrs : Nat
  clusterAddrs : Nat
  osdFsid : Nat
  version : Nat
  capsOk : Bool
  fsidMatch : Bool
  blankAddr : Bool
  featuresOk : Bool
  releaseOk : Bool
  pglogOk : Bool
deriving DecidableEq

/-- The outcome of `preprocess_boot`. -/
inductive BootDecision
  | ignore
  | ackDup
  | sendLatest
  | forward
deriving DecidableEq

/-- `OSDMonitor::preprocess_boot` (OSDMonitor.cc:2866-2987), guard by
guard in source order.  `.forward` is the `return false` path that hands
the message to `prepare_boot`. -/
def preprocessBoot (m : OSDMap) (msg : BootMsg) : BootDecision :=
  if !msg.capsOk then .ignore
  else if !msg.fsidMatch then .ignore
  else if msg.blankAddr then .ignore
  else if !msg.featuresOk then .ignore
  else if !msg.releaseOk then .ignore
  else if !msg.pglogOk then .ignore
  else if m.isUp msg.osdFrom &&
      decide (m.clientAddrs msg.osdFrom = msg.clientAddrs) &&
      decide (m.clusterAddrs msg.osdFrom = msg.clusterAddrs) then
    .ackDup
  else if m.existsOsd msg.osdFrom && decide (m.osdUuid msg.osdFrom ≠ 0) &&
      decide (m.osdUuid msg.osdFrom ≠ msg.osdFsid) then
    .ignore
  else if m.existsOsd msg.osdFrom &&
      decide (m.osdUpFrom msg.osdFrom > msg.version) &&
      decide (m.mostRecentAddrs msg.osdFrom = msg.clientAddrs) then
    .sendLatest
  else if !(canMarkUp m msg.osdFrom) then .sendLatest
  else .forward

/-- The outcome of `prepare_boot`. -/
inductive PrepResult
  | dismissed
  | retryAfterCommit
  | booted
deriving DecidableEq

/-- `OSDMonitor::prepare_boot` (OSDMonitor.cc:2989-3142).  The final
"mark new guy up" branch also records metadata, last-clean intervals and
laggy-xinfo blending in the source; those fields are not read by any
modelled claim and are elided here. -/
def prepareBoot (m : OSDMap) (p : PendingInc) (msg : BootMsg) :
    PrepResult × PendingInc :=
  if decide (msg.osdFrom ≥ m.maxOsd) then (.dismissed, p)
  else if m.isUp msg.osdFrom then
    -- already up: mark the previous instance down first, then retry once
    -- that transition has committed
    let p1 :=
      if !(alreadyPendingDown p msg.osdFrom) then
        { p with newState := amSet p.newState msg.osdFrom cephOsdUp }
      else p
    (.retryAfterCommit, p1)
  else if amContains p.newUpClient msg.osdFrom then
    (.retryAfterCommit, p)
  else
    let p1 := { p with
      newUpClient := amSet p.newUpClient msg.osdFrom msg.clientAddrs
      newUpCluster := amSet p.newUpCluster msg.osdFrom msg.clusterAddrs
      newUuid :=
        if !(m.existsOsd msg.osdFrom) ||
            decide (m.osdUuid msg.osdFrom ≠ msg.osdFsid) then
          amSet p.newUuid msg.osdFrom msg.osdFsid
        else p.newUuid }
    (.booted, p1)

/-- The caller-visible outcome of one boot stimulus. -/
inductive BootOutcome
  | ignored
  | ackSuccessNoop
  | sentLatest
  | dismissed
  | retryAfterCommit
  | booted
deriving DecidableEq

/-- One boot stimulus end to end: `preprocess_boot` then, when forwarded,
`prepare_boot`. -/
def handleBoot (m : OSDMap) (p : PendingInc) (msg : BootMsg) :
    BootOutcome × PendingInc :=
  match preprocessBoot m msg with
  | .ignore => (.ignored, p)
  | .ackDup => (.ackSuccessNoop, p)
  | .sendLatest => (.sentLatest, p)
  | .forward =>
      match prepareBoot m p msg with
      | (.dismissed, p1) => (.dismissed, p1)
      | (.retryAfterCommit, p1) => (.retryAfterCommit, p1)
      | (.booted, p1) => (.booted, p1)

/-- **C6.** For a boot stimulus whose generic guards pass, against a device
that is currently up: if the client and cluster addresses are unchanged,
the request is acknowledged as success with the pending delta untouched
(idempotent no-op, OSDMonitor.cc:2944-2954); if any address differs, an
implicit down transition is staged into the pending delta, no up transition
is staged this round, and the boot waits for that commit
(OSDMonitor.cc:3015-3030). -/
theorem C6_boot_idempotent_readdress (m : OSDMap) (p : PendingInc)
    (msg : BootMsg)
    (hc : msg.capsOk = true) (hf : msg.fsidMatch = true)
    (hb : msg.blankAddr = false) (hft : msg.featuresOk = true)
    (hrel : msg.releaseOk = true) (hpg : msg.pglogOk = true)
    (hup : m.isUp msg.osdFrom = true)
    (huuid : m.osdUuid msg.osdFrom = msg.osdFsid)
    (hver : m.osdUpFrom msg.osdFrom ≤ msg.version)
    (hnoup : m.isNoup msg.osdFrom = false) :
    ((m.clientAddrs msg.osdFrom = msg.clientAddrs ∧
        m.clusterAddrs msg.osdFrom = msg.clusterAddrs) →
      handleBoot m p msg = (.ackSuccessNoop, p)) ∧
    (¬ (m.clientAddrs msg.osdFrom = msg.clientAddrs ∧
        m.clusterAddrs msg.osdFrom = msg.clusterAddrs) →
      (handleBoot m p msg).1 = .retryAfterCommit ∧
      alreadyPendingDown (handleBoot m p msg).2 msg.osdFrom = true ∧
      (handleBoot m p msg).2.newUpClient = p.newUpClient) := by
  have hlt : msg.osdFrom < m.maxOsd := by
    have h1 : m.existsOsd msg.osdFrom = true := by
      have := hup
      unfold OSDMap.isUp at this
      exact (Bool.and_eq_true_iff.mp this).1
    unfold OSDMap.existsOsd at h1
    have := (Bool.and_eq_true_iff.mp h1).1
    exact of_decide_eq_true this
  constructor
  · rintro ⟨ha, hb2⟩
    unfold handleBoot preprocessBoot
    simp [hc, hf, hb, hft, hrel, hpg, hup, ha, hb2]
  · intro hne
    have hdec : preprocessBoot m msg = .forward := by
      unfold preprocessBoot
      have hdup : ¬ (m.isUp msg.osdFrom &&
          decide (m.clientAddrs msg.osdFrom = msg.clientAddrs) &&
          decide (m.clusterAddrs msg.osdFrom = msg.clusterAddrs)) = true := by
        intro hcontra
        have h1 := Bool.and_eq_true_iff.mp hcontra
        have h2 := Bool.and_eq_true_iff.mp h1.1
        exact hne ⟨of_decide_eq_true h2.2, of_decide_eq_true h1.2⟩
      have hcl : ¬ (m.existsOsd msg.osdFrom &&
          decide (m.osdUuid msg.osdFrom ≠ 0) &&
          decide (m.osdUuid msg.osdFrom ≠ msg.osdFsid)) = true := by
        intro hcontra
        have h1 := Bool.and_eq_true_iff.mp hcontra
        exact (of_decide_eq_true h1.2) huuid
      have hvf : ¬ (m.existsOsd msg.osdFrom &&
          decide (m.osdUpFrom msg.osdFrom > msg.version) &&
          decide (m.mostRecentAddrs msg.osdFrom = msg.clientAddrs)) = true := by
        intro hcontra
        have h1 := Bool.and_eq_true_iff.mp hcontra
        have h2 := Bool.and_eq_true_iff.mp h1.1
        exact absurd (of_decide_eq_true h2.2) (by omega)
      simp [hc, hf, hb, hft, hrel, hpg, hdup, hcl, hvf, canMarkUp, hnoup]
      intro _ _
      exact huuid
    have hhb : handleBoot m p msg =
        (.retryAfterCommit,
          if !(alreadyPendingDown p msg.osdFrom) then
            { p with newState := amSet p.newState msg.osdFrom cephOsdUp }
          else p) := by
      unfold handleBoot
      rw [hdec]
      unfold prepareBoot
      rw [decide_eq_false (by omega : ¬ msg.osdFrom ≥ m.maxOsd)]
      simp only [Bool.false_eq_true, if_false, hup, if_true]
    rw [hhb]
    refine ⟨rfl, ?_, ?_⟩
    · by_cases hs : alreadyPendingDown p msg.osdFrom = true
      · simp [hs]
      · have hs2 : alreadyPendingDown p msg.osdFrom = false :=
          Bool.eq_false_iff.mpr hs
        simp only [hs2, Bool.not_false, if_pos]
        unfold alreadyPendingDown
        rw [amGet_amSet_self]
        rfl
    · by_cases hs : alreadyPendingDown p msg.osdFrom = true
      · simp [hs]
      · have hs2 : alreadyPendingDown p msg.osdFrom = false :=
          Bool.eq_false_iff.mpr hs
        simp [hs2]

/-- Witness for C6: boot of up osd 0 on `mapTwoUp` with a changed client
address: the pending delta acquires the down transition, no up is staged. -/
theorem C6_boot_idempotent_readdress_witness :
    (¬ ((mapTwoUp.clientAddrs 0 = 7 ∧ mapTwoUp.clusterAddrs 0 = 0)) →
      (handleBoot mapTwoUp (PendingInc.empty 5)
          ⟨0, 7, 0, 1, 3, true, true, false, true, true, true⟩).1 =
        .retryAfterCommit ∧
      alreadyPendingDown (handleBoot mapTwoUp (PendingInc.empty 5)
          ⟨0, 7, 0, 1, 3, true, true, false, true, true, true⟩).2 0 = true ∧
      (handleBoot mapTwoUp (PendingInc.empty 5)
          ⟨0, 7, 0, 1, 3, true, true, false, true, true, true⟩).2.newUpClient =
        (PendingInc.empty 5).newUpClient) ∧
    ¬ ((mapTwoUp.clientAddrs 0 = 7 ∧ mapTwoUp.clusterAddrs 0 = 0)) :=
  ⟨(C6_boot_idempotent_readdress mapTwoUp (PendingInc.empty 5)
      ⟨0, 7, 0, 1, 3, true, true, false, true, true, true⟩
      rfl rfl rfl rfl rfl rfl (by decide) (by decide) (by decide)
      (by decide)).2,
   by decide⟩

/-! ## Part 5: the down-to-out sweep (`tick`, OSDMonitor.cc:4509-4597) and
the `osd out` operator command (osd_cmds.cc:1029-1055) -/

/-- Stage an automatic out transition (OSDMonitor.cc:4573-4583):
`new_weight[o] = CEPH_OSD_OUT`, set the AUTOOUT bit, remember the previous
weight in xinfo. -/
def stageAutoOut (m : OSDMap) (p : PendingInc) (o : Nat) : PendingInc :=
  let p1 := { p with newWeight := amSet p.newWeight o 0 }
  let st0 := (amGet p1.newState o).getD StateMask.zero
  let p2 := { p1 with
    newState := amSet p1.newState o (st0.orM cephOsdAutoout) }
  let xi0 := (amGet p2.newXinfo o).getD (m.osdXinfo o)
  { p2 with
    newXinfo := amSet p2.newXinfo o { xi0 with oldWeight := m.osdWeight o } }

/-- One iteration of the down-to-out sweep body (OSDMonitor.cc:4522-4594)
for the entry `(o, downSince)` of `down_pending_out`.  The bookkeeping of
`down_pending_out` itself (timer resets and erasures) does not affect
which transitions are staged during this invocation and is elided.
`down.sec()` truncates to seconds in the source; times are compared
directly here. -/
def tickDownOutStep (cfg : MonConfig) (expFn : ℚ → ℚ) (m : OSDMap)
    (now : ℚ) (p : PendingInc) (entry : Nat × ℚ) : PendingInc :=
  let o := entry.1
  let down := now - entry.2
  if m.isDown o && m.isIn o && canMarkOut cfg m p (o : Int) then
    let xi := m.osdXinfo o
    let myGrace : ℚ :=
      if cfg.monOsdAdjustDownOutInterval then
        expFn (down * cfg.decayK) * xi.laggyInterval * xi.laggyProbability
      else 0
    let grace := cfg.monOsdDownOutInterval + myGrace
    if cfg.monOsdDownOutSubtreeLimitActive && m.subtreeDown o then
      p -- entire containing subtree down: reset timer, continue
    else
      let downOut := !(m.isDestroyed o) &&
        decide (cfg.monOsdDownOutInterval > 0) && decide (down ≥ grace)
      let destroyedOut := m.isDestroyed o &&
        decide (cfg.monOsdDestroyedOutInterval > 0) &&
        decide (down ≥ cfg.monOsdDestroyedOutInterval)
      if downOut || destroyedOut then stageAutoOut m p o else p
  else p

/-- The down-to-out sweep loop over the `down_pending_out` entries. -/
def tickDownOutLoop (cfg : MonConfig) (expFn : ℚ → ℚ) (m : OSDMap)
    (now : ℚ) (p : PendingInc) (entries : List (Nat × ℚ)) : PendingInc :=
  entries.foldl (tickDownOutStep cfg expFn m now) p

/-- The sweep as guarded in `tick` (OSDMonitor.cc:4516): nothing runs
unless the global `can_mark_out(-1)` check passes. -/
def tickDownOut (cfg : MonConfig) (expFn : ℚ → ℚ) (m : OSDMap) (now : ℚ)
    (p : PendingInc) (entries : List (Nat × ℚ)) : PendingInc :=
  if canMarkOut cfg m p (-1) then
    tickDownOutLoop cfg expFn m now p entries
  else p

/-- The `osd out` operator command body (osd_cmds.cc:1029-1055) for one
osd id (the id was already checked to exist by the surrounding loop,
osd_cmds.cc:1002).  Returns the updated pending delta and the `any`
flag (a change was staged). -/
def cmdOsdOut (m : OSDMap) (p : PendingInc) (osd : Nat) : PendingInc × Bool :=
  if !(m.existsOsd osd) then (p, false)
  else if m.isOut osd then (p, false)
  else
    let p1 := { p with newWeight := amSet p.newWeight osd 0 }
    let p2 :=
      if decide (m.osdWeight osd ≠ 0) then
        let xi0 := (amGet p1.newXinfo osd).getD (m.osdXinfo osd)
        { p1 with
          newXinfo := amSet p1.newXinfo osd
            { xi0 with oldWeight := m.osdWeight osd } }
      else p1
    (p2, true)

/-- **C7 (amended).** Mark-out transitions produced by the automatic
down-to-out sweep are guarded by `can_mark_out`: per device, an entry whose
`can_mark_out` check fails against the pending delta accumulated so far
(prospective in-ratio below `mon_osd_min_in_ratio`, or a no-out flag)
stages nothing, and when the global `can_mark_out(-1)` check fails the
whole sweep stages nothing (OSDMonitor.cc:4516-4594).  The operator
`osd out` command does not consult these guards (see the
counterexample). -/
theorem C7_sweep_guarded (cfg : MonConfig) (expFn : ℚ → ℚ) (m : OSDMap)
    (now : ℚ) (p : PendingInc) (entries : List (Nat × ℚ)) (o : Nat) (t : ℚ)
    (h1 : canMarkOut cfg m (tickDownOutLoop cfg expFn m now p entries)
      (o : Int) = false)
    (h2 : canMarkOut cfg m p (-1) = false) :
    tickDownOutLoop cfg expFn m now p (entries ++ [(o, t)]) =
      tickDownOutLoop cfg expFn m now p entries ∧
    tickDownOut cfg expFn m now p entries = p := by
  constructor
  · have hfold : tickDownOutLoop cfg expFn m now p (entries ++ [(o, t)]) =
        tickDownOutStep cfg expFn m now
          (tickDownOutLoop cfg expFn m now p entries) (o, t) := by
      simp [tickDownOutLoop, List.foldl_append]
    rw [hfold]
    unfold tickDownOutStep
    simp [h1]
  · unfold tickDownOut
    simp [h2]

/-- Witness for C7 (amended): global NOOUT flag set, so both the per-entry
and the global `can_mark_out` guards fail and the sweep is a no-op. -/
theorem C7_sweep_guarded_witness :
    canMarkOut cfg0 { mapTwoUp with flagNoout := true }
        (tickDownOutLoop cfg0 expOne { mapTwoUp with flagNoout := true }
          100 (PendingInc.empty 5) []) ((0 : Nat) : Int) = false ∧
    tickDownOutLoop cfg0 expOne { mapTwoUp with flagNoout := true } 100
        (PendingInc.empty 5) ([] ++ [(0, 3)]) =
      tickDownOutLoop cfg0 expOne { mapTwoUp with flagNoout := true } 100
        (PendingInc.empty 5) [] ∧
    tickDownOut cfg0 expOne { mapTwoUp with flagNoout := true } 100
        (PendingInc.empty 5) [] = PendingInc.empty 5 := by
  have h1 : canMarkOut cfg0 { mapTwoUp with flagNoout := true }
      (tickDownOutLoop cfg0 expOne { mapTwoUp with flagNoout := true }
        100 (PendingInc.empty 5) []) ((0 : Nat) : Int) = false := by
    simp [canMarkOut, OSDMap.isNoout, mapTwoUp]
  have h2 : canMarkOut cfg0 { mapTwoUp with flagNoout := true }
      (PendingInc.empty 5) (-1) = false := by
    simp [canMarkOut, OSDMap.isNoout, mapTwoUp]
  exact ⟨h1, C7_sweep_guarded cfg0 expOne { mapTwoUp with flagNoout := true }
    100 (PendingInc.empty 5) [] 0 3 h1 h2⟩

/-- A map with a single existing, down, in osd whose per-osd NOOUT flag is
set: `can_mark_out` would reject marking it out. -/
def mapOneNoout : OSDMap :=
  { maxOsd := 1
    osdState := fun _ =>
      { StateMask.zero with existsB := true, noout := true }
    osdWeight := fun _ => 1
    osdUuid := fun _ => 1
    osdXinfo := fun _ => XInfo.default
    clientAddrs := fun _ => 0
    clusterAddrs := fun _ => 0
    mostRecentAddrs := fun _ => 0
    osdUpFrom := fun _ => 0
    crushLoc := fun _ _ => none
    subtreeDown := fun _ => false
    flagNoup := false, flagNodown := false
    flagNoin := false, flagNoout := false
    blacklist := [] }

/-- **C7 counterexample.** The claim states that *every* mark_out
transition, including one requested by the operator command, is rejected
when the device's no-out flag is set (or the in-ratio floor would be
violated).  On `mapOneNoout`, `can_mark_out(0)` is false (the per-osd
NOOUT flag is set), yet the `osd out` command body stages
`new_weight[0] = CEPH_OSD_OUT` and reports a change. -/
theorem C7_cmd_out_counterexample :
    canMarkOut cfg0 mapOneNoout (PendingInc.empty 5) ((0 : Nat) : Int) =
      false ∧
    mapOneNoout.isNoout ((0 : Nat) : Int) = true ∧
    (cmdOsdOut mapOneNoout (PendingInc.empty 5) 0).2 = true ∧
    amGet (cmdOsdOut mapOneNoout (PendingInc.empty 5) 0).1.newWeight 0 =
      some 0 := by
  refine ⟨?_, by decide, by decide, by decide⟩
  simp [canMarkOut, OSDMap.isNoout, mapOneNoout, OSDMap.existsOsd,
    StateMask.zero]

/-! ## Part 6: destroy (`osd destroy-actual`, osd_cmds.cc:1386-1431 and
`prepare_command_osd_destroy`, osds.cc:493-563), and the spec-modelled
application of a pending delta -/

/-- The effective state mask staged for osd `i`, with the source's
`int s = i->second ? i->second : CEPH_OSD_UP` convention (a zero mask is
read as CEPH_OSD_UP). -/
def pendingMaskAt (p : PendingInc) (i : Nat) : Option StateMask :=
  match amGet p.newState i with
  | none => none
  | some s => some (if s = StateMask.zero then cephOsdUp else s)

/-- Modelled from the spec: `OSDMap::apply_incremental` (OSDMap.cc is not
among the sources).  Spec §3 describes deltas as sparse "device-state
XOR-mask changes, weight changes, new/old pool records, new/old blacklist
entries"; the XOR application matches the use site
`oldstate ^= pending_inc.new_state[from]` (OSDMonitor.cc:3011-3013).
Spec §4.2: destroy "clears uuid, sets destroyed bit, clears weight; does
not remove the id slot", and remove "fully erases state/uuid"; a mask that
both has EXISTS and hits an existing osd is the remove path and resets the
slot.  Only the fields read by the modelled claims are applied. -/
def applyPendingToMap (m : OSDMap) (p : PendingInc) : OSDMap :=
  { m with
    maxOsd := if 0 ≤ p.newMaxOsd then p.newMaxOsd.toNat else m.maxOsd
    osdState := fun i =>
      match pendingMaskAt p i with
      | none => m.osdState i
      | some s =>
          if (m.osdState i).existsB && s.existsB then StateMask.zero
          else (m.osdState i).xorM s
    osdUuid := fun i =>
      match pendingMaskAt p i with
      | some s =>
          if (m.osdState i).existsB && s.existsB then 0
          else (amGet p.newUuid i).getD (m.osdUuid i)
      | none => (amGet p.newUuid i).getD (m.osdUuid i)
    osdWeight := fun i =>
      match pendingMaskAt p i with
      | some s =>
          if s.destroyed || ((m.osdState i).existsB && s.existsB) then 0
          else (amGet p.newWeight i).getD (m.osdWeight i)
      | none => (amGet p.newWeight i).getD (m.osdWeight i)
    osdXinfo := fun i => (amGet p.newXinfo i).getD (m.osdXinfo i)
    clientAddrs := fun i => (amGet p.newUpClient i).getD (m.clientAddrs i)
    clusterAddrs := fun i => (amGet p.newUpCluster i).getD (m.clusterAddrs i)
    blacklist :=
      m.blacklist.filter (fun e => !(p.oldBlacklist.contains e.1)) ++
        p.newBlacklist }

/-- `OSDMonitor::prepare_command_osd_destroy` (osds.cc:493-563).  The
interactions with the external credential authority and config-key service
(validate/do_osd_destroy) do not touch the pending delta and are elided.
Returns `(err, pending)` with the C error-code convention
(-2 = ENOENT). -/
def prepareCommandOsdDestroy (m : OSDMap) (p : PendingInc) (id : Nat) :
    Int × PendingInc :=
  if !(m.existsOsd id) then (-2, p)
  else if m.isDestroyed id then (0, p)
  else
    (0, { p with
      newState := amSet p.newState id cephOsdDestroyed
      newUuid := amSet p.newUuid id 0 })

/-- The `osd destroy-actual` command body (osd_cmds.cc:1386-1431):
`--yes-i-really-mean-it` gate (-1 = EPERM), nonexistent id is idempotent
success, a device that is still up is busy (-16 = EBUSY), an already
destroyed device is success without effect, otherwise destroy. -/
def cmdOsdDestroyActual (m : OSDMap) (p : PendingInc) (id : Nat)
    (sure : Bool) : Int × PendingInc :=
  if !sure then (-1, p)
  else if !(m.existsOsd id) then (0, p)
  else if m.isUp id then (-16, p)
  else if m.isDestroyed id then (0, p)
  else prepareCommandOsdDestroy m p id

/-- **C8.** `destroy(id)` is rejected with EBUSY while the device is up,
without staging anything; on an existing, down, not-destroyed device it
succeeds and, once the staged delta is applied, the device's uuid is
cleared, the destroyed bit is set, the weight is cleared, and the id slot
remains allocated (the device still exists); destroying an
already-destroyed id succeeds again as a no-op
(osd_cmds.cc:1386-1431, osds.cc:493-563). -/
theorem C8_destroy (m : OSDMap) (p : PendingInc) (id : Nat)
    (hex : m.existsOsd id = true) (hmax : p.newMaxOsd = -1) :
    (m.isUp id = true →
      cmdOsdDestroyActual m p id true = (-16, p)) ∧
    (m.isUp id = false → m.isDestroyed id = false →
      (cmdOsdDestroyActual m p id true).1 = 0 ∧
      (let m1 := applyPendingToMap m (cmdOsdDestroyActual m p id true).2
       m1.osdUuid id = 0 ∧ m1.isDestroyed id = true ∧
       m1.osdWeight id = 0 ∧ m1.existsOsd id = true)) ∧
    (m.isUp id = false → m.isDestroyed id = true →
      cmdOsdDestroyActual m p id true = (0, p)) := by
  have hexB : (m.osdState id).existsB = true :=
    (Bool.and_eq_true_iff.mp hex).2
  have hlt : id < m.maxOsd :=
    of_decide_eq_true (Bool.and_eq_true_iff.mp hex).1
  refine ⟨?_, ?_, ?_⟩
  · intro hup
    unfold cmdOsdDestroyActual
    simp [hex, hup]
  · intro hup hdes
    have hres : cmdOsdDestroyActual m p id true =
        (0, { p with
          newState := amSet p.newState id cephOsdDestroyed
          newUuid := amSet p.newUuid id 0 }) := by
      unfold cmdOsdDestroyActual prepareCommandOsdDestroy
      simp [hex, hup, hdes]
    rw [hres]
    refine ⟨rfl, ?_, ?_, ?_, ?_⟩
    · -- uuid cleared
      show (applyPendingToMap m _).osdUuid id = 0
      unfold applyPendingToMap pendingMaskAt
      simp only [amGet_amSet_self]
      have : ¬ (cephOsdDestroyed = StateMask.zero) := by decide
      simp only [if_neg this]
      have hnotrm : ((m.osdState id).existsB && cephOsdDestroyed.existsB)
          = false := by
        simp [cephOsdDestroyed, StateMask.zero]
      simp [hnotrm, amGet_amSet_self]
    · -- destroyed bit set
      show (applyPendingToMap m _).isDestroyed id = true
      have hdbit : (m.osdState id).destroyed = false := by
        by_contra hc
        have : m.isDestroyed id = true := by
          unfold OSDMap.isDestroyed
          rw [hex]
          simpa using Bool.not_eq_false _ |>.mp hc
        rw [this] at hdes
        exact absurd hdes (by simp)
      unfold OSDMap.isDestroyed OSDMap.existsOsd applyPendingToMap
        pendingMaskAt
      simp only [amGet_amSet_self]
      have : ¬ (cephOsdDestroyed = StateMask.zero) := by decide
      simp only [if_neg this]
      have hnotrm : ((m.osdState id).existsB && cephOsdDestroyed.existsB)
          = false := by
        simp [cephOsdDestroyed, StateMask.zero]
      simp [hnotrm, StateMask.xorM, cephOsdDestroyed, StateMask.zero,
        hexB, hdbit, hmax, hlt]
    · -- weight cleared
      show (applyPendingToMap m _).osdWeight id = 0
      unfold applyPendingToMap pendingMaskAt
      simp only [amGet_amSet_self]
      have : ¬ (cephOsdDestroyed = StateMask.zero) := by decide
      simp only [if_neg this]
      simp [cephOsdDestroyed, StateMask.zero]
    · -- slot still allocated
      show (applyPendingToMap m _).existsOsd id = true
      unfold OSDMap.existsOsd applyPendingToMap pendingMaskAt
      simp only [amGet_amSet_self]
      have : ¬ (cephOsdDestroyed = StateMask.zero) := by decide
      simp only [if_neg this]
      have hnotrm : ((m.osdState id).existsB && cephOsdDestroyed.existsB)
          = false := by
        simp [cephOsdDestroyed, StateMask.zero]
      simp [hnotrm, StateMask.xorM, cephOsdDestroyed, StateMask.zero,
        hexB, hmax, hlt]
  · intro hup hdes
    unfold cmdOsdDestroyActual
    simp [hex, hup, hdes]

/-- A map with a single existing, down, not destroyed osd. -/
def mapOneDown : OSDMap :=
  { maxOsd := 1
    osdState := fun _ => { StateMask.zero with existsB := true }
    osdWeight := fun _ => 1
    osdUuid := fun _ => 42
    osdXinfo := fun _ => XInfo.default
    clientAddrs := fun _ => 0
    clusterAddrs := fun _ => 0
    mostRecentAddrs := fun _ => 0
    osdUpFrom := fun _ => 0
    crushLoc := fun _ _ => none
    subtreeDown := fun _ => false
    flagNoup := false, flagNodown := false
    flagNoin := false, flagNoout := false
    blacklist := [] }

/-- Witness for C8: destroying the down osd 0 of `mapOneDown` succeeds,
and after applying the staged delta the uuid is zero, the destroyed bit is
set, the weight is zero and the slot still exists. -/
theorem C8_destroy_witness :
    (cmdOsdDestroyActual mapOneDown (PendingInc.empty 5) 0 true).1 = 0 ∧
    (let m1 := applyPendingToMap mapOneDown
        (cmdOsdDestroyActual mapOneDown (PendingInc.empty 5) 0 true).2
     m1.osdUuid 0 = 0 ∧ m1.isDestroyed 0 = true ∧
     m1.osdWeight 0 = 0 ∧ m1.existsOsd 0 = true) :=
  (C8_destroy mapOneDown (PendingInc.empty 5) 0 (by decide) rfl).2.1
    (by decide) (by decide)

/-! ## Part 7: id allocation (`_allocate_osd_id`, OSDMonitor.cc:5338-5357;
`do_osd_create`, osds.cc:139-226) -/

/-- The scan predicate of `_allocate_osd_id`: the id does not exist in the
committed map, is not pending boot, and has no pending EXISTS bit. -/
def freeSlot (m : OSDMap) (p : PendingInc) (i : Nat) : Bool :=
  !(m.existsOsd i) && !(amContains p.newUpClient i) &&
    (match amGet p.newState i with
     | none => true
     | some s => !s.existsB)

/-- `OSDMonitor::_allocate_osd_id` (OSDMonitor.cc:5338-5357): return
`(-1, i)` for the first free id `i` below `max_osd`, else
`(prospective max_osd, -1)` (growing the table). -/
def allocateOsdId (m : OSDMap) (p : PendingInc) : Int × Int :=
  match (List.range m.maxOsd).find? (freeSlot m p) with
  | some i => (-1, (i : Int))
  | none =>
      (if p.newMaxOsd < 0 then (m.maxOsd : Int) else p.newMaxOsd, -1)

/-- `OSDMap::identify_osd(uuid)` (accessor outside the monitor sources):
the id holding this uuid, or -1. -/
def identifyOsd (m : OSDMap) (uuid : Nat) : Int :=
  match (List.range m.maxOsd).find? (fun i => decide (m.osdUuid i = uuid)) with
  | some i => (i : Int)
  | none => -1

/-- The tail of `do_osd_create` (osds.cc:218-225, device-class handling
elided): possibly raise `new_max_osd`, set the EXISTS and NEW bits, record
the uuid. -/
def doOsdCreateFinalize (m : OSDMap) (p : PendingInc) (newId : Nat)
    (uuid : Nat) : PendingInc :=
  let p1 :=
    if (m.maxOsd : Int) ≤ (newId : Int) ∧ p.newMaxOsd ≤ (newId : Int) then
      { p with newMaxOsd := (newId : Int) + 1 }
    else p
  let st0 := (amGet p1.newState newId).getD StateMask.zero
  let p2 := { p1 with
    newState := amSet p1.newState newId
      (st0.orM (cephOsdExists.orM cephOsdNew)) }
  if uuid ≠ 0 then { p2 with newUuid := amSet p2.newUuid newId uuid }
  else p2

/-- `OSDMonitor::do_osd_create` (osds.cc:139-226): reuse the id already
holding the uuid, honour an explicit id, otherwise allocate — preferring a
free (nonexistent) slot over raising `max_osd`.  Returns
`(new_id, pending)`. -/
def doOsdCreate (m : OSDMap) (p : PendingInc) (id : Int) (uuid : Nat) :
    Int × PendingInc :=
  if uuid ≠ 0 ∧ 0 ≤ identifyOsd m uuid then
    ((identifyOsd m uuid),
      doOsdCreateFinalize m p (identifyOsd m uuid).toNat uuid)
  else if uuid ≠ 0 ∧ 0 ≤ id then
    (id, doOsdCreateFinalize m p id.toNat uuid)
  else
    let a := allocateOsdId m p
    if 0 ≤ a.2 then
      let p1 := { p with newWeight := amSet p.newWeight a.2.toNat 0 }
      (a.2, doOsdCreateFinalize m p1 a.2.toNat uuid)
    else
      let p1 :=
        if p.newMaxOsd < 0 then { p with newMaxOsd := (m.maxOsd : Int) + 1 }
        else { p with newMaxOsd := p.newMaxOsd + 1 }
      ((p1.newMaxOsd - 1),
        doOsdCreateFinalize m p1 (p1.newMaxOsd - 1).toNat uuid)

/-- A map with a single osd that exists and is destroyed (and no free
slot). -/
def mapOneDestroyed : OSDMap :=
  { maxOsd := 1
    osdState := fun _ =>
      { StateMask.zero with existsB := true, destroyed := true }
    osdWeight := fun _ => 0
    osdUuid := fun _ => 42
    osdXinfo := fun _ => XInfo.default
    clientAddrs := fun _ => 0
    clusterAddrs := fun _ => 0
    mostRecentAddrs := fun _ => 0
    osdUpFrom := fun _ => 0
    crushLoc := fun _ _ => none
    subtreeDown := fun _ => false
    flagNoup := false, flagNodown := false
    flagNoin := false, flagNoout := false
    blacklist := [] }

/-- **C9 counterexample.** The claim states that whenever at least one
destroyed id exists, a create without an explicit id allocates a destroyed
id rather than growing the table.  On `mapOneDestroyed`, id 0 is destroyed,
yet `_allocate_osd_id` skips it (a destroyed osd still `exists`, and the
scan looks for nonexistent ids only) and the create allocates id 1 by
raising `max_osd` to 2. -/
theorem C9_counterexample :
    mapOneDestroyed.isDestroyed 0 = true ∧
    allocateOsdId mapOneDestroyed (PendingInc.empty 5) = (1, -1) ∧
    (doOsdCreate mapOneDestroyed (PendingInc.empty 5) (-1) 7).1 = 1 ∧
    (doOsdCreate mapOneDestroyed (PendingInc.empty 5) (-1) 7).2.newMaxOsd
      = 2 := by
  refine ⟨by decide, by decide, by decide, by decide⟩

/-- **C9 (amended).** For a create stimulus without an explicit id, the
allocator prefers reusing an id slot that does not exist (never created,
or fully removed) over growing the device table: whenever a free slot
below `max_osd` exists, `_allocate_osd_id` returns the first such slot and
`do_osd_create` (with a fresh uuid) allocates it without raising
`max_osd`.  Destroyed ids still exist and are not picked by the automatic
allocator; they are reused only when requested explicitly
(`prepare_command_osd_new`, osds.cc:280-333). -/
theorem C9_allocator_prefers_free_slot (m : OSDMap) (p : PendingInc)
    (uuid : Nat)
    (h : ∃ i, i < m.maxOsd ∧ freeSlot m p i = true)
    (huuid : uuid ≠ 0) (hfresh : identifyOsd m uuid = -1) :
    ∃ j, j < m.maxOsd ∧ freeSlot m p j = true ∧
      allocateOsdId m p = (-1, (j : Int)) ∧
      (doOsdCreate m p (-1) uuid).1 = (j : Int) := by
  obtain ⟨i, hi, hfree⟩ := h
  have hsome : ((List.range m.maxOsd).find? (freeSlot m p)).isSome := by
    rw [List.find?_isSome]
    exact ⟨i, List.mem_range.mpr hi, hfree⟩
  obtain ⟨j, hj⟩ := Option.isSome_iff_exists.mp hsome
  have hjmem : j ∈ List.range m.maxOsd := List.mem_of_find?_eq_some hj
  have hjfree : freeSlot m p j = true := List.find?_some hj
  have halloc : allocateOsdId m p = (-1, (j : Int)) := by
    unfold allocateOsdId
    rw [hj]
  refine ⟨j, List.mem_range.mp hjmem, hjfree, halloc, ?_⟩
  unfold doOsdCreate
  rw [if_neg (by simp [hfresh]), if_neg (by simp), halloc]
  simp

/-- Witness for C9 (amended): a table of two slots where id 0 never
existed: the create reuses slot 0. -/
theorem C9_allocator_prefers_free_slot_witness :
    (∃ i, i < 2 ∧ freeSlot
      { mapTwoUp with osdState := fun i =>
          if i = 0 then StateMask.zero
          else { StateMask.zero with existsB := true, up := true } }
      (PendingInc.empty 5) i = true) ∧
    (∃ j, j < ({ mapTwoUp with osdState := fun i =>
          if i = 0 then StateMask.zero
          else { StateMask.zero with existsB := true, up := true } } :
            OSDMap).maxOsd ∧
      freeSlot
        { mapTwoUp with osdState := fun i =>
            if i = 0 then StateMask.zero
            else { StateMask.zero with existsB := true, up := true } }
        (PendingInc.empty 5) j = true ∧
      allocateOsdId
        { mapTwoUp with osdState := fun i =>
            if i = 0 then StateMask.zero
            else { StateMask.zero with existsB := true, up := true } }
        (PendingInc.empty 5) = (-1, (j : Int)) ∧
      (doOsdCreate
        { mapTwoUp with osdState := fun i =>
            if i = 0 then StateMask.zero
            else { StateMask.zero with existsB := true, up := true } }
        (PendingInc.empty 5) (-1) 7).1 = (j : Int)) :=
  ⟨⟨0, by decide, by decide⟩,
   C9_allocator_prefers_free_slot _ (PendingInc.empty 5) 7
     ⟨0, by decide, by decide⟩ (by decide) (by decide)⟩

/-! ## Part 8: blacklist expiry in the leader tick
(OSDMonitor.cc:4599-4608) -/

/-- One iteration of the blacklist-expiry loop: an entry whose expiry time
is before `now` is pushed onto `old_blacklist` and forces a proposal. -/
def tickBlacklistStep (now : ℚ) (acc : PendingInc × Bool) (e : Nat × ℚ) :
    PendingInc × Bool :=
  if e.2 < now then
    ({ acc.1 with oldBlacklist := acc.1.oldBlacklist ++ [e.1] }, true)
  else acc

/-- The blacklist-expiry loop of the leader tick
(OSDMonitor.cc:4599-4608), returning the updated pending delta and the
`do_propose` contribution. -/
def tickExpireBlacklist (m : OSDMap) (now : ℚ) (p : PendingInc) :
    PendingInc × Bool :=
  m.blacklist.foldl (tickBlacklistStep now) (p, false)

theorem tickBlacklist_newBlacklist (now : ℚ) (l : List (Nat × ℚ))
    (acc : PendingInc × Bool) :
    (l.foldl (tickBlacklistStep now) acc).1.newBlacklist =
      acc.1.newBlacklist := by
  induction l generalizing acc with
  | nil => rfl
  | cons e t ih =>
      rw [List.foldl_cons, ih]
      unfold tickBlacklistStep
      split <;> rfl

theorem tickBlacklist_old_mono (now : ℚ) (l : List (Nat × ℚ))
    (acc : PendingInc × Bool) (a : Nat)
    (h : a ∈ acc.1.oldBlacklist) :
    a ∈ (l.foldl (tickBlacklistStep now) acc).1.oldBlacklist := by
  induction l generalizing acc with
  | nil => exact h
  | cons e t ih =>
      rw [List.foldl_cons]
      apply ih
      unfold tickBlacklistStep
      split
      · simp only [List.mem_append]
        exact Or.inl h
      · exact h

theorem tickBlacklist_flag_mono (now : ℚ) (l : List (Nat × ℚ))
    (acc : PendingInc × Bool) (h : acc.2 = true) :
    (l.foldl (tickBlacklistStep now) acc).2 = true := by
  induction l generalizing acc with
  | nil => exact h
  | cons e t ih =>
      rw [List.foldl_cons]
      apply ih
      unfold tickBlacklistStep
      split
      · rfl
      · exact h

theorem tickBlacklist_mem_old (now : ℚ) (l : List (Nat × ℚ))
    (acc : PendingInc × Bool) (a : Nat) (t : ℚ)
    (hmem : (a, t) ∈ l) (hexp : t < now) :
    a ∈ (l.foldl (tickBlacklistStep now) acc).1.oldBlacklist ∧
    (l.foldl (tickBlacklistStep now) acc).2 = true := by
  induction l generalizing acc with
  | nil => cases hmem
  | cons e rest ih =>
      rw [List.foldl_cons]
      rcases List.mem_cons.mp hmem with he | he
      · have hstep : tickBlacklistStep now acc e =
            ({ acc.1 with oldBlacklist := acc.1.oldBlacklist ++ [e.1] },
              true) := by
          unfold tickBlacklistStep
          rw [if_pos (show e.2 < now from he ▸ hexp)]
        rw [hstep]
        constructor
        · apply tickBlacklist_old_mono
          simp [← he]
        · exact tickBlacklist_flag_mono now rest _ rfl
      · exact ih _ he

/-- **C10.** On a leader tick, every blacklist entry of the committed map
whose expiry time is earlier than `now` is staged for removal in the
pending delta (`old_blacklist`) and forces a proposal; once the resulting
delta is applied (blacklist removals per the spec-modelled
`applyPendingToMap`), the expired entry is gone from the next map, so it
never survives past the next committed epoch produced by the tick-driven
round (OSDMonitor.cc:4599-4608). -/
theorem C10_blacklist_expiry (m : OSDMap) (now : ℚ) (p : PendingInc)
    (addr : Nat) (t : ℚ)
    (hmem : (addr, t) ∈ m.blacklist) (hexp : t < now)
    (hnb : ∀ t2, (addr, t2) ∉ p.newBlacklist) :
    addr ∈ (tickExpireBlacklist m now p).1.oldBlacklist ∧
    (tickExpireBlacklist m now p).2 = true ∧
    ∀ t2, (addr, t2) ∉
      (applyPendingToMap m (tickExpireBlacklist m now p).1).blacklist := by
  obtain ⟨hold, hflag⟩ :=
    tickBlacklist_mem_old now m.blacklist (p, false) addr t hmem hexp
  refine ⟨hold, hflag, ?_⟩
  intro t2 hcontra
  unfold applyPendingToMap at hcontra
  simp only [List.mem_append] at hcontra
  rcases hcontra with hfil | hnew
  · have := (List.mem_filter.mp hfil).2
    simp only [Bool.not_eq_true', List.contains_eq_any_beq] at this
    rw [List.any_eq_false] at this
    have h2 := this addr hold
    simp at h2
  · have hsame :
        (tickExpireBlacklist m now p).1.newBlacklist = p.newBlacklist :=
      tickBlacklist_newBlacklist now m.blacklist (p, false)
    rw [hsame] at hnew
    exact hnb t2 hnew

/-- Witness for C10: one blacklist entry expired 10 < 20; it is staged and
absent from the applied map. -/
theorem C10_blacklist_expiry_witness :
    (9, (10 : ℚ)) ∈ ({ mapTwoUp with blacklist := [(9, 10)] } :
      OSDMap).blacklist ∧
    (9 ∈ (tickExpireBlacklist { mapTwoUp with blacklist := [(9, 10)] } 20
        (PendingInc.empty 5)).1.oldBlacklist ∧
    (tickExpireBlacklist { mapTwoUp with blacklist := [(9, 10)] } 20
        (PendingInc.empty 5)).2 = true ∧
    ∀ t2, (9, t2) ∉
      (applyPendingToMap { mapTwoUp with blacklist := [(9, 10)] }
        (tickExpireBlacklist { mapTwoUp with blacklist := [(9, 10)] } 20
          (PendingInc.empty 5)).1).blacklist) :=
  ⟨by simp,
   C10_blacklist_expiry { mapTwoUp with blacklist := [(9, 10)] } 20
     (PendingInc.empty 5) 9 10 (by simp) (by norm_num)
     (by simp [PendingInc.empty])⟩

/-! ## Part 9: the Pruner (`should_prune`, OSDMonitor.cc:1834-1892;
`_prune_sanitize_options`, 1964-2010; `prune_init`, 1929-1962;
`do_prune`, 2025-2148) -/

/-- Modelled from the spec: `osdmap_manifest_t` (declared in OSDMonitor.h,
which is not among the sources; spec §3 PinnedManifest:
"`pinned: ordered_set<epoch>`").  The accessors below mirror their use
sites in OSDMonitor.cc; `get_last_pinned`/`get_lower_closest_pinned`
return 0 for an empty (or all-greater) pin set, matching the source's
sentinel convention (epoch 0 is invalid). -/
structure OsdmapManifest where
  pinned : Finset Nat
deriving DecidableEq

/-- `osdmap_manifest_t::is_pinned`. -/
def OsdmapManifest.isPinned (mf : OsdmapManifest) (v : Nat) : Bool :=
  decide (v ∈ mf.pinned)

/-- `osdmap_manifest_t::get_last_pinned` (0 when empty). -/
def OsdmapManifest.getLastPinned (mf : OsdmapManifest) : Nat :=
  mf.pinned.sup id

/-- `osdmap_manifest_t::get_lower_closest_pinned(v)`: the greatest pinned
epoch ≤ v, or 0 when none. -/
def OsdmapManifest.getLowerClosestPinned (mf : OsdmapManifest) (v : Nat) :
    Nat :=
  (mf.pinned.filter (fun p => p ≤ v)).sup id

/-- `osdmap_manifest_t::pin`. -/
def OsdmapManifest.pin (mf : OsdmapManifest) (v : Nat) : OsdmapManifest :=
  ⟨insert v mf.pinned⟩

/-- `OSDMonitor::should_prune` (OSDMonitor.cc:1834-1892). -/
def shouldPrune (cfg : MonConfig) (first last : Nat) (hasManifest : Bool)
    (mf : OsdmapManifest) : Bool :=
  let minEpochs := cfg.monMinOsdmapEpochs
  let pruneMin := cfg.monOsdmapFullPruneMin
  let pruneInterval := cfg.monOsdmapFullPruneInterval
  let lastPinned := mf.getLastPinned
  let lastToPin := last - minEpochs
  if last - first ≤ minEpochs then false
  else if lastToPin - first < pruneMin then false
  else if hasManifest && decide (lastPinned ≥ lastToPin) then false
  else if lastPinned + pruneInterval > lastToPin then false
  else true

/-- `OSDMonitor::_prune_sanitize_options` (OSDMonitor.cc:1964-2010). -/
def pruneSanitizeOptions (cfg : MonConfig) : Bool :=
  let pruneInterval := cfg.monOsdmapFullPruneInterval
  let pruneMin := cfg.monOsdmapFullPruneMin
  let txsize := cfg.monOsdmapFullPruneTxsize
  !(decide (pruneInterval = 0)) && !(decide (pruneInterval = 1)) &&
    !(decide (pruneMin = 0)) && !(decide (pruneInterval > pruneMin)) &&
    !(decide (txsize < pruneInterval - 1))

/-- `OSDMonitor::prune_init` (OSDMonitor.cc:1929-1962): pin the first
committed epoch on a fresh manifest, else re-pin the last pinned epoch
(an idempotent insert). -/
def pruneInit (first : Nat) (hasManifest : Bool) (mf : OsdmapManifest) :
    OsdmapManifest :=
  if !hasManifest then mf.pin first
  else mf.pin mf.getLastPinned

/-- A key of the monitor's osdmap store namespace. -/
inductive StoreKey
  | fullKey (v : Nat)
  | incKey (v : Nat)
  | manifestKey
deriving DecidableEq

/-- The `do_prune` pruning loop (OSDMonitor.cc:2108-2139), mirrored with
explicit fuel (each pass consumes `removal_interval ≥ 1` of the `txsize`
budget, so `txsize + 1` passes always suffice).  State: current manifest,
keys erased so far (`tx->erase` calls, all on `"full_<v>"` keys), and
`num_pruned`. -/
def pruneLoop (pruneInterval lastToPin txsize : Nat) :
    Nat → OsdmapManifest → List StoreKey → Nat →
      OsdmapManifest × List StoreKey
  | 0, mf, erased, _ => (mf, erased)
  | fuel + 1, mf, erased, numPruned =>
      let removalInterval := pruneInterval - 1
      if numPruned + removalInterval ≤ txsize then
        let lastPinned := mf.getLastPinned
        if lastPinned + pruneInterval > lastToPin then (mf, erased)
        else
          let nextPinned := lastPinned + pruneInterval
          let mf2 := mf.pin nextPinned
          let newErased :=
            (List.range (nextPinned - (lastPinned + 1))).map
              (fun k => StoreKey.fullKey (lastPinned + 1 + k))
          pruneLoop pruneInterval lastToPin txsize fuel mf2
            (erased ++ newErased) (numPruned + removalInterval)
      else (mf, erased)

/-- `OSDMonitor::do_prune` (OSDMonitor.cc:2025-2148): `none` models the
`return false` path (no side effects); otherwise the final manifest
(written back under the manifest key) and the erased full-map keys. -/
def doPrune (cfg : MonConfig) (first last : Nat) (hasManifest : Bool)
    (mf : OsdmapManifest) : Option (OsdmapManifest × List StoreKey) :=
  if !cfg.monOsdmapFullPruneEnabled || !(pruneSanitizeOptions cfg) ||
      !(shouldPrune cfg first last hasManifest mf) then
    none
  else
    let lastToPin := last - cfg.monMinOsdmapEpochs
    let pruneInterval := cfg.monOsdmapFullPruneInterval
    let removalInterval := pruneInterval - 1
    let txsize0 := cfg.monOsdmapFullPruneTxsize
    let txsize :=
      if txsize0 < removalInterval then removalInterval else txsize0
    let mf1 := pruneInit first hasManifest mf
    some (pruneLoop pruneInterval lastToPin txsize (txsize + 1) mf1 [] 0)

/-- `v` lies strictly between two adjacent pinned epochs of `mf`. -/
def BetweenAdjacent (mf : OsdmapManifest) (v : Nat) : Prop :=
  ∃ p ∈ mf.pinned, ∃ q ∈ mf.pinned, p < v ∧ v < q ∧
    ∀ r ∈ mf.pinned, r ≤ p ∨ q ≤ r

theorem mem_le_getLastPinned (mf : OsdmapManifest) (a : Nat)
    (h : a ∈ mf.pinned) : a ≤ mf.getLastPinned :=
  Finset.le_sup (f := id) h

theorem getLastPinned_mem (mf : OsdmapManifest) (h : mf.pinned.Nonempty) :
    mf.getLastPinned ∈ mf.pinned := by
  obtain ⟨b, hb, he⟩ := Finset.exists_mem_eq_sup mf.pinned h id
  rw [OsdmapManifest.getLastPinned, he]
  exact hb

theorem betweenAdjacent_pin_ge (mf : OsdmapManifest) (v r0 : Nat)
    (hr0 : mf.getLastPinned ≤ r0) (h : BetweenAdjacent mf v) :
    BetweenAdjacent (mf.pin r0) v := by
  obtain ⟨p, hp, q, hq, hpv, hvq, hadj⟩ := h
  refine ⟨p, Finset.mem_insert_of_mem hp, q, Finset.mem_insert_of_mem hq,
    hpv, hvq, ?_⟩
  intro r hr
  rcases Finset.mem_insert.mp hr with hr | hr
  · subst hr
    right
    exact le_trans (mem_le_getLastPinned mf q hq) hr0
  · exact hadj r hr

/-- The pruning-loop invariant: the manifest stays nonempty, the erased
list accounts exactly for `num_pruned ≤ txsize`, and every erased key is a
full-map key strictly between two adjacent pins, below `last_to_pin`. -/
def PruneInv (lastToPin txsize : Nat) (mf : OsdmapManifest)
    (erased : List StoreKey) (numPruned : Nat) : Prop :=
  mf.pinned.Nonempty ∧ erased.length = numPruned ∧ numPruned ≤ txsize ∧
  ∀ k ∈ erased, ∃ v, k = StoreKey.fullKey v ∧ v < lastToPin ∧
    BetweenAdjacent mf v

theorem pruneLoop_inv (pruneInterval lastToPin txsize : Nat) (fuel : Nat)
    (mf : OsdmapManifest) (erased : List StoreKey) (numPruned : Nat)
    (h : PruneInv lastToPin txsize mf erased numPruned) :
    PruneInv lastToPin txsize
      (pruneLoop pruneInterval lastToPin txsize fuel mf erased numPruned).1
      (pruneLoop pruneInterval lastToPin txsize fuel mf erased numPruned).2
      ((pruneLoop pruneInterval lastToPin txsize fuel mf erased
        numPruned).2).length := by
  induction fuel generalizing mf erased numPruned with
  | zero =>
      obtain ⟨h1, h2, h3, h4⟩ := h
      simp only [pruneLoop]
      exact ⟨h1, rfl, by omega, h4⟩
  | succ fuel ih =>
      obtain ⟨h1, h2, h3, h4⟩ := h
      unfold pruneLoop
      by_cases hbudget : numPruned + (pruneInterval - 1) ≤ txsize
      · rw [if_pos hbudget]
        by_cases hbreak :
            mf.getLastPinned + pruneInterval > lastToPin
        · rw [if_pos hbreak]
          exact ⟨h1, rfl, by show erased.length ≤ txsize; omega, h4⟩
        · rw [if_neg hbreak]
          apply ih
          constructor
          · exact ⟨mf.getLastPinned + pruneInterval,
              Finset.mem_insert_self _ _⟩
          refine ⟨?_, by omega, ?_⟩
          · simp only [List.length_append, List.length_map,
              List.length_range, h2]
            omega
          · intro k hk
            rcases List.mem_append.mp hk with hold | hnew
            · obtain ⟨v, hkv, hvlt, hbet⟩ := h4 k hold
              exact ⟨v, hkv, hvlt,
                betweenAdjacent_pin_ge mf v _ (by omega) hbet⟩
            · obtain ⟨j, hj, hkj⟩ := List.mem_map.mp hnew
              have hjlt : j < mf.getLastPinned + pruneInterval -
                  (mf.getLastPinned + 1) := List.mem_range.mp hj
              refine ⟨mf.getLastPinned + 1 + j, hkj.symm, by omega, ?_⟩
              refine ⟨mf.getLastPinned,
                Finset.mem_insert_of_mem (getLastPinned_mem mf h1),
                mf.getLastPinned + pruneInterval,
                Finset.mem_insert_self _ _, by omega, by omega, ?_⟩
              intro r hr
              rcases Finset.mem_insert.mp hr with hr | hr
              · right; omega
              · left; exact mem_le_getLastPinned mf r hr
      · rw [if_neg hbudget]
        exact ⟨h1, rfl, by show erased.length ≤ txsize; omega, h4⟩

/-- **C3.** Every run of the Pruner erases only full-snapshot store keys,
each lying strictly between two adjacent pinned epochs of the manifest it
writes back; it never erases an incremental key or the manifest key, every
erased epoch is below `last_committed - mon_min_osdmap_epochs` (so the
most recent min-retained epochs keep their full snapshots), and the number
of keys erased in one invocation is at most the deletion budget
`mon_osdmap_full_prune_txsize` (which `_prune_sanitize_options` has
already required to be at least one removal interval)
(OSDMonitor.cc:1834-1892, 1964-2010, 2025-2148). -/
theorem C3_prune_frame (cfg : MonConfig) (first last : Nat)
    (hasManifest : Bool) (mf mf2 : OsdmapManifest)
    (erased : List StoreKey)
    (h : doPrune cfg first last hasManifest mf = some (mf2, erased)) :
    (∀ k ∈ erased, ∃ v, k = StoreKey.fullKey v ∧
      v < last - cfg.monMinOsdmapEpochs ∧ BetweenAdjacent mf2 v) ∧
    erased.length ≤ cfg.monOsdmapFullPruneTxsize := by
  unfold doPrune at h
  by_cases hg : (!cfg.monOsdmapFullPruneEnabled ||
      !(pruneSanitizeOptions cfg) ||
      !(shouldPrune cfg first last hasManifest mf)) = true
  · rw [if_pos hg] at h
    cases h
  · rw [if_neg hg] at h
    have hg2 := hg
    simp only [Bool.or_eq_true, Bool.not_eq_true', not_or,
      Bool.not_eq_false] at hg2
    have hsan : pruneSanitizeOptions cfg = true := hg2.1.2
    have htx : ¬ (cfg.monOsdmapFullPruneTxsize <
        cfg.monOsdmapFullPruneInterval - 1) := by
      unfold pruneSanitizeOptions at hsan
      simp only [Bool.and_eq_true, Bool.not_eq_true',
        decide_eq_false_iff_not] at hsan
      exact hsan.2
    simp only [] at h
    rw [if_neg htx] at h
    have hx := Option.some.inj h
    have hinv := pruneLoop_inv cfg.monOsdmapFullPruneInterval
      (last - cfg.monMinOsdmapEpochs) cfg.monOsdmapFullPruneTxsize
      (cfg.monOsdmapFullPruneTxsize + 1) (pruneInit first hasManifest mf)
      [] 0
      ⟨by
        unfold pruneInit OsdmapManifest.pin
        split <;> exact ⟨_, Finset.mem_insert_self _ _⟩,
       rfl, by omega, by intro k hk; cases hk⟩
    rw [hx] at hinv
    obtain ⟨hne, hlen, hble, hall⟩ := hinv
    exact ⟨hall, hble⟩

/-- Prune-friendly configuration for concrete runs: keep 2 epochs, prune
at least 4, interval 2, budget 10. -/
def cfgPrune : MonConfig :=
  { cfg0 with
    monMinOsdmapEpochs := 2
    monOsdmapFullPruneMin := 4
    monOsdmapFullPruneInterval := 2
    monOsdmapFullPruneTxsize := 10
    monOsdmapFullPruneEnabled := true }

/-- The manifest written back by the concrete prune run of the C3
witness (pins 1, 3, 5, 7, 9). -/
def prunedManifest : OsdmapManifest :=
  ((doPrune cfgPrune 1 12 false ⟨∅⟩).getD (⟨∅⟩, [])).1

/-- Witness for C3: over epochs 1..12 with no previous manifest, the
pruner erases exactly the full snapshots 2, 4, 6, 8 (each strictly
between two adjacent pins of the written-back manifest). -/
theorem C3_prune_frame_witness :
    doPrune cfgPrune 1 12 false ⟨∅⟩ =
      some (prunedManifest,
        [StoreKey.fullKey 2, StoreKey.fullKey 4, StoreKey.fullKey 6,
          StoreKey.fullKey 8]) ∧
    ((∀ k ∈ [StoreKey.fullKey 2, StoreKey.fullKey 4, StoreKey.fullKey 6,
          StoreKey.fullKey 8], ∃ v, k = StoreKey.fullKey v ∧
        v < 12 - cfgPrune.monMinOsdmapEpochs ∧
        BetweenAdjacent prunedManifest v) ∧
      [StoreKey.fullKey 2, StoreKey.fullKey 4, StoreKey.fullKey 6,
        StoreKey.fullKey 8].length ≤ cfgPrune.monOsdmapFullPruneTxsize) :=
  ⟨rfl,
   C3_prune_frame cfgPrune 1 12 false ⟨∅⟩ prunedManifest
     [StoreKey.fullKey 2, StoreKey.fullKey 4, StoreKey.fullKey 6,
       StoreKey.fullKey 8] rfl⟩

/-! ## Part 10: full-map retrieval and reconstruction
(`get_version_full`, OSDMonitor.cc:4154-4184;
`get_full_from_pinned_map`, OSDMonitor.cc:4054-4152) -/

/-- The osdmap portion of the monitor store: full snapshots under
`full_<v>` and incrementals under `<v>` (the record at `v` takes `v-1` to
`v`), as read by `PaxosService::get_version_full` / `get_inc`. -/
structure MapStore (M I : Type) where
  fulls : Nat → Option M
  incs : Nat → Option (IncRecord I)

/-- Failure modes of retrieval: `-ENOENT`, or one of the
`ceph_assert`/`ceph_abort` fatal paths. -/
inductive GetErr
  | enoent
  | fatalAbort
deriving DecidableEq

/-- The incremental-replay loop of `get_full_from_pinned_map`
(OSDMonitor.cc:4102-4140): apply the stored incrementals
`base+1 .. base+n` in order on top of `osdm` (the loop is peeled from its
tail for structural recursion on the count).  A missing incremental is the
`ceph_assert(err == 0)` path; when `mon_debug_extra_checks` is set and the
incremental carries a nonzero `full_crc`, a mismatch with the CRC of the
just-reconstructed map is the `ceph_abort_msg("osdmap crc mismatch")`
path. -/
def applyIncs {M I : Type} (ap : M → I → M) (crc : M → Nat)
    (debugChecks : Bool) (st : MapStore M I) (base : Nat) (osdm : M) :
    Nat → Except GetErr M
  | 0 => .ok osdm
  | Nat.succ k =>
      match applyIncs ap crc debugChecks st base osdm k with
      | .error e => .error e
      | .ok mp =>
          let v := base + k + 1
          match st.incs v with
          | none => .error .fatalAbort
          | some r =>
              let m2 := ap mp r.delta
              if debugChecks && decide (r.full_crc ≠ 0) &&
                  decide (crc m2 ≠ r.full_crc) then
                .error .fatalAbort
              else .ok m2

/-- `OSDMonitor::get_full_from_pinned_map` (OSDMonitor.cc:4054-4152):
find the nearest lower pinned epoch (0 = none → ENOENT), load its full
snapshot (missing → `ceph_assert`), replay the incrementals up to `ver`.
The `full_osd_cache` probe is an optimization over the same data and is
elided (the cache-miss path is modelled). -/
def getFullFromPinnedMap {M I : Type} (ap : M → I → M) (crc : M → Nat)
    (debugChecks : Bool) (st : MapStore M I) (mf : OsdmapManifest)
    (ver : Nat) : Except GetErr M :=
  let closestPinned := mf.getLowerClosestPinned ver
  if closestPinned = 0 then .error .enoent
  else
    match st.fulls closestPinned with
    | none => .error .fatalAbort
    | some m0 =>
        applyIncs ap crc debugChecks st closestPinned m0
          (ver - closestPinned)

/-- `OSDMonitor::get_version_full` (OSDMonitor.cc:4154-4184): direct store
lookup of `full_<ver>`, falling back to reconstruction from the pinned
manifest on ENOENT (cache/re-encode handling elided). -/
def getVersionFull {M I : Type} (ap : M → I → M) (crc : M → Nat)
    (debugChecks : Bool) (st : MapStore M I) (mf : OsdmapManifest)
    (ver : Nat) : Except GetErr M :=
  match st.fulls ver with
  | some mp => .ok mp
  | none => getFullFromPinnedMap ap crc debugChecks st mf ver

/-- A store whose epoch-2 full map is pruned and whose stored incremental
carries a wrong `full_crc` (999 instead of 15). -/
def stBadCrc : MapStore Nat Nat :=
  ⟨fun v => if v = 1 then some 10 else none,
   fun v => if v = 2 then some ⟨5, 999⟩ else none⟩

/-- **C2 counterexample.** The claim states that during reconstruction
each intermediate map's CRC is verified against the incremental's embedded
`full_crc`, with a fatal abort on mismatch.  In the source the check only
runs under the `mon_debug_extra_checks` config option
(OSDMonitor.cc:4115).  With that option off, reconstructing epoch 2 from
pinned epoch 1 applies an incremental whose embedded `full_crc` (999)
differs from the CRC of the reconstructed map (15), and succeeds with no
abort. -/
theorem C2_crc_check_counterexample :
    getVersionFull (fun a b => a + b) (fun x => x) false stBadCrc ⟨{1}⟩ 2 =
      .ok 15 ∧
    stBadCrc.incs 2 = some ⟨5, 999⟩ ∧
    (fun x : Nat => x) 15 ≠ 999 :=
  ⟨rfl, rfl, by decide⟩

/-- Well-formedness of the store against the ground-truth map history
`truth`: committed epochs span `[first, last]`, the first committed epoch
is pinned, stored fulls agree with the truth, pinned fulls are present,
and every incremental in range is present, applies correctly, and carries
the CRC of its resulting map. -/
def StoreWF {M I : Type} (ap : M → I → M) (crc : M → Nat)
    (st : MapStore M I) (mf : OsdmapManifest) (first last : Nat)
    (truth : Nat → M) : Prop :=
  1 ≤ first ∧
  first ∈ mf.pinned ∧
  (∀ q ∈ mf.pinned, q ≤ last) ∧
  (∀ v mp, first ≤ v → v ≤ last → st.fulls v = some mp → mp = truth v) ∧
  (∀ q ∈ mf.pinned, st.fulls q = some (truth q)) ∧
  (∀ v, first < v → v ≤ last →
    ∃ r, st.incs v = some r ∧ ap (truth (v - 1)) r.delta = truth v ∧
      r.full_crc = crc (truth v))

theorem applyIncs_ok {M I : Type} (ap : M → I → M) (crc : M → Nat)
    (debugChecks : Bool) (st : MapStore M I) (first last : Nat)
    (truth : Nat → M)
    (hincs : ∀ v, first < v → v ≤ last →
      ∃ r, st.incs v = some r ∧ ap (truth (v - 1)) r.delta = truth v ∧
        r.full_crc = crc (truth v))
    (base : Nat) (hbase : first ≤ base) :
    ∀ n, base + n ≤ last →
      applyIncs ap crc debugChecks st base (truth base) n =
        .ok (truth (base + n)) := by
  intro n
  induction n with
  | zero => intro _; rfl
  | succ k ih =>
      intro hle
      have hk : base + k ≤ last := by omega
      obtain ⟨r, hr, happ, hcrc⟩ :=
        hincs (base + k + 1) (by omega) (by omega)
      have hv : base + k + 1 - 1 = base + k := by omega
      rw [hv] at happ
      have hcrcF :
          decide (crc (truth (base + k + 1)) ≠ r.full_crc) = false := by
        rw [hcrc]
        simp
      unfold applyIncs
      rw [ih hk]
      simp only [hr, happ, hcrcF, Bool.and_false, Bool.false_eq_true,
        if_false]
      rfl

/-- **C2 (amended).** For every epoch E in `[first_committed,
last_committed]` of a well-formed store, `get_full(E)` succeeds and
returns the true map of epoch E: when the full snapshot was pruned, it is
rebuilt by loading the nearest lower pinned full snapshot and replaying
every stored incremental up to E — the reconstruction path is taken with
any setting of `mon_debug_extra_checks`, but the per-step CRC verification
(fatal abort on mismatch) runs only when that option is enabled and the
delta's `full_crc` is nonzero (OSDMonitor.cc:4054-4184). -/
theorem C2_get_full_succeeds {M I : Type} (ap : M → I → M) (crc : M → Nat)
    (debugChecks : Bool) (st : MapStore M I) (mf : OsdmapManifest)
    (first last : Nat) (truth : Nat → M)
    (hwf : StoreWF ap crc st mf first last truth)
    (E : Nat) (h1 : first ≤ E) (h2 : E ≤ last) :
    getVersionFull ap crc debugChecks st mf E = .ok (truth E) := by
  obtain ⟨hf1, hfp, hpl, hfull, hpin, hincs⟩ := hwf
  unfold getVersionFull
  cases hE : st.fulls E with
  | some mp =>
      simp only
      rw [hfull E mp h1 h2 hE]
  | none =>
      simp only
      unfold getFullFromPinnedMap
      have hfS : first ∈ mf.pinned.filter (fun p => p ≤ E) :=
        Finset.mem_filter.mpr ⟨hfp, h1⟩
      obtain ⟨b, hb, hbe⟩ := Finset.exists_mem_eq_sup
        (mf.pinned.filter (fun p => p ≤ E)) ⟨first, hfS⟩ id
      have hclosest : mf.getLowerClosestPinned E = b := by
        rw [OsdmapManifest.getLowerClosestPinned, hbe]
        rfl
      have hbpin : b ∈ mf.pinned := (Finset.mem_filter.mp hb).1
      have hbE : b ≤ E := (Finset.mem_filter.mp hb).2
      have hbfirst : first ≤ b := by
        have := Finset.le_sup (f := id) hfS
        rw [hbe] at this
        exact this
      rw [hclosest]
      rw [if_neg (by omega : ¬ b = 0)]
      rw [hpin b hbpin]
      simp only
      have := applyIncs_ok ap crc debugChecks st first last truth hincs b
        hbfirst (E - b) (by omega)
      rw [show b + (E - b) = E by omega] at this
      rw [this]

/-- The ground-truth history for the C2 witness: epoch v holds map
`9 + v`. -/
def truthGood : Nat → Nat := fun v => 9 + v

/-- A well-formed store over epochs 1..3 where epochs 2 and 3 have been
pruned (only pinned epoch 1 retains a full snapshot). -/
def stGood : MapStore Nat Nat :=
  ⟨fun v => if v = 1 then some 10 else none,
   fun v =>
     if v = 2 then some ⟨1, 11⟩
     else if v = 3 then some ⟨1, 12⟩
     else none⟩

/-- Witness for C2 (amended): reconstruction of pruned epoch 2 succeeds
and yields the true map 11, with the debug checks enabled. -/
theorem C2_get_full_succeeds_witness :
    StoreWF (fun a b => a + b) (fun x => x) stGood ⟨{1}⟩ 1 3 truthGood ∧
    getVersionFull (fun a b => a + b) (fun x => x) true stGood ⟨{1}⟩ 2 =
      .ok (truthGood 2) := by
  have hwf : StoreWF (fun a b => a + b) (fun x => x) stGood ⟨{1}⟩ 1 3
      truthGood := by
    refine ⟨le_refl 1, by decide, by decide, ?_, ?_, ?_⟩
    · intro v mp h1 h2 hv
      unfold stGood at hv
      by_cases hv1 : v = 1
      · subst hv1
        unfold truthGood
        simp at hv
        omega
      · simp [hv1] at hv
    · intro q hq
      have : q = 1 := by
        have := Finset.mem_singleton.mp hq
        exact this
      subst this
      rfl
    · intro v h1 h2
      match v, h1, h2 with
      | 2, _, _ => exact ⟨⟨1, 11⟩, rfl, rfl, rfl⟩
      | 3, _, _ => exact ⟨⟨1, 12⟩, rfl, rfl, rfl⟩
  exact ⟨hwf,
    C2_get_full_succeeds (fun a b => a + b) (fun x => x) true stGood ⟨{1}⟩
      1 3 truthGood hwf 2 (by decide) (by decide)⟩

end Ceph
